import Mathlib

/-!
Verification of the participating-media core of pbrt (`src/pbrt/media.h`).

The development shallowly embeds the Henyey-Greenstein phase function, the
homogeneous medium, the cuboid (majorant-grid) medium with its 3-D DDA walk,
and the cloud density provider over the real numbers.  Machine `Float`
arithmetic is modelled by `ℝ`; IEEE infinities produced by division by a zero
direction component are modelled by explicit guards that reproduce the
comparison behaviour of the source (an infinite `nextCrossingT` is never the
smallest, so the corresponding axis is never selected by the DDA).

Functions from pbrt utility headers that are not part of the given source
(`FastExp`, `SampleExponential`, `Clamp`, `HenyeyGreenstein`,
`SampleHenyeyGreenstein`, `Bounds3f::IntersectP`, vector helpers) are
modelled from the specification and carry a `Modelled from the spec:` note.

Loops of the source are `while (true)` loops; the embedding supplies fuel.
The outer DDA loop is run with fuel `res.x + res.y + res.z + 1`, which the
termination theorem proves sufficient.  The inner rejection-sampling loop
draws unboundedly many random numbers in the source; the embedding takes an
explicit `innerFuel` budget and flags exhaustion, and every theorem is
quantified over that budget.
-/

noncomputable section

namespace PbrtMedia

/-- Sampled spectrum carrying four wavelength samples, modelling pbrt's
`SampledSpectrum` (`NSpectrumSamples = 4`); arithmetic is componentwise. -/
abbrev Spec : Type := Fin 4 → ℝ

/-- Three-dimensional point or vector with real components, modelling pbrt's
`Point3f` / `Vector3f`; component `i` is the x/y/z coordinate for `i = 0/1/2`. -/
abbrev V3 : Type := Fin 3 → ℝ

/-- Modelled from the spec: the dot product of two 3-vectors (`Dot(a, b)` in
pbrt's vector utilities, which are not part of the given source). -/
def dot3 (a b : V3) : ℝ := a 0 * b 0 + a 1 * b 1 + a 2 * b 2

/-- Modelled from the spec: the vector length `Length(v) = sqrt(v . v)`. -/
def length3 (v : V3) : ℝ := Real.sqrt (dot3 v v)

/-- Modelled from the spec: `Normalize(v) = v / Length(v)`. -/
def normalize3 (v : V3) : V3 := fun i => v i / length3 v

/-- Modelled from the spec: pbrt's `Clamp(val, low, high)`:
below `low` it returns `low`, above `high` it returns `high`, else `val`. -/
def Clamp (val low high : ℝ) : ℝ :=
  if val < low then low else if val > high then high else val

/-- Modelled from the spec: pbrt's `FastExp` is an approximation of the real
exponential; the specification treats it as the exact closed-form
exponential, which is how it is modelled here. -/
def FastExp (x : ℝ) : ℝ := Real.exp x

/-- Modelled from the spec: `SampleExponential(u, a) = -ln(1 - u) / a`, the
inverse-CDF sample of an exponential distribution with rate `a`. -/
def SampleExponential (u a : ℝ) : ℝ := -Real.log (1 - u) / a

/-- Componentwise transmittance factor `FastExp(-sigma * dt)` applied to a
sampled spectrum, as in the expressions `FastExp(-sigma_maj * (t1 - t0))`
and `FastExp(-t * sigma_maj)` of the source. -/
def specExpFactor (sigma : Spec) (dt : ℝ) : Spec := fun i => FastExp (-sigma i * dt)

/-- Maximum of a sampled spectrum over its four wavelength samples.  This is
the quantity the specification's words "maximum scattering+absorption
coefficient across sampled wavelengths" denote; it is used to compare the
specification against the source, which uses the first sample instead. -/
def specMax (s : Spec) : ℝ := max (max (s 0) (s 1)) (max (s 2) (s 3))

/-- Ray with origin, direction and time, modelling pbrt's `Ray` (the medium
code never reads `ray.medium`). -/
structure Ray where
  o : V3
  d : V3
  time : ℝ

/-- Point on a ray at parameter `t`, modelling `ray(t) = o + t * d`. -/
def rayAt (o d : V3) (t : ℝ) : V3 := fun i => o i + t * d i

/-! ### Henyey-Greenstein phase function -/

/-- Modelled from the spec: pbrt's `HenyeyGreenstein(cosTheta, g)` closed
form, `Inv4Pi * (1 - g^2) / (denom * SafeSqrt(denom))` with
`denom = 1 + g^2 + 2 g cosTheta` (`Real.sqrt` of a negative number is `0`,
matching `SafeSqrt`). -/
def HenyeyGreenstein (cosTheta g : ℝ) : ℝ :=
  (4 * Real.pi)⁻¹ * (1 - g ^ 2) / ((1 + g ^ 2 + 2 * g * cosTheta) *
    Real.sqrt (1 + g ^ 2 + 2 * g * cosTheta))

/-- Henyey-Greenstein phase function, modelling the class `HGPhaseFunction`
of the source (its only member is the anisotropy `g`). -/
structure HGPhaseFunction where
  g : ℝ

/-- Phase function value `p(wo, wi) = HenyeyGreenstein(Dot(wo, wi), g)`,
as in the source. -/
def HGPhaseFunction.p (hg : HGPhaseFunction) (wo wi : V3) : ℝ :=
  HenyeyGreenstein (dot3 wo wi) hg.g

/-- Phase function sampling density `PDF(wo, wi) = p(wo, wi)`, as in the
source. -/
def HGPhaseFunction.PDF (hg : HGPhaseFunction) (wo wi : V3) : ℝ := hg.p wo wi

/-- Result record of phase function sampling, modelling pbrt's
`PhaseFunctionSample`. -/
structure PhaseFunctionSample where
  p : ℝ
  wi : V3
  pdf : ℝ

/-- Modelled from the spec: pbrt's `CoordinateSystem(v1)` (branchless
construction of two vectors orthogonal to `v1`); `copysign(1, z)` is
modelled as `-1` for negative `z` and `+1` otherwise, signed zero being
unrepresentable in `ℝ`. -/
def coordinateSystem (v1 : V3) : V3 × V3 :=
  let sign : ℝ := if v1 2 < 0 then -1 else 1
  let a := -1 / (sign + v1 2)
  let b := v1 0 * v1 1 * a
  (![1 + sign * v1 0 * v1 0 * a, sign * b, -sign * v1 0],
   ![b, sign + v1 1 * v1 1 * a, -v1 1])

/-- Modelled from the spec: `SphericalDirection(sinTheta, cosTheta, phi)`. -/
def sphericalDirection (sinTheta cosTheta phi : ℝ) : V3 :=
  ![sinTheta * Real.cos phi, sinTheta * Real.sin phi, cosTheta]

/-- Modelled from the spec: `Frame::FromZ(wo).FromLocal(v)`, the vector with
local coordinates `v` in the orthonormal frame whose z-axis is `wo`. -/
def fromLocalZ (wo v : V3) : V3 :=
  fun i => v 0 * (coordinateSystem wo).1 i + v 1 * (coordinateSystem wo).2 i + v 2 * wo i

/-- Modelled from the spec: pbrt's `SampleHenyeyGreenstein(wo, g, u, &pdf)`;
returns the sampled direction together with the probability density it
writes through `pdf`. -/
def SampleHenyeyGreenstein (wo : V3) (g : ℝ) (u : ℝ × ℝ) : V3 × ℝ :=
  let cosTheta : ℝ :=
    if |g| < 1e-3 then 1 - 2 * u.1
    else -1 / (2 * g) * (1 + g ^ 2 - ((1 - g ^ 2) / (1 + g - 2 * g * u.1)) ^ 2)
  let sinTheta := Real.sqrt (1 - cosTheta ^ 2)
  let phi := 2 * Real.pi * u.2
  (fromLocalZ wo (sphericalDirection sinTheta cosTheta phi), HenyeyGreenstein cosTheta g)

/-- Phase function sampling, as in the source: draws `wi` with
`SampleHenyeyGreenstein` and returns `PhaseFunctionSample(pdf, wi, pdf)`. -/
def HGPhaseFunction.Sample_p (hg : HGPhaseFunction) (wo : V3) (u : ℝ × ℝ) :
    PhaseFunctionSample :=
  ⟨(SampleHenyeyGreenstein wo hg.g u).2, (SampleHenyeyGreenstein wo hg.g u).1,
   (SampleHenyeyGreenstein wo hg.g u).2⟩

/-- The first vector built by `coordinateSystem` is orthogonal to a unit
input vector. -/
lemma dot3_coordinateSystem_fst (wo : V3) (h : dot3 wo wo = 1) :
    dot3 wo (coordinateSystem wo).1 = 0 := by
  have h' : wo 0 * wo 0 + wo 1 * wo 1 + wo 2 * wo 2 = 1 := h
  unfold coordinateSystem
  by_cases hz : wo 2 < 0
  · have hne : (-1 : ℝ) + wo 2 ≠ 0 := by linarith
    simp only [if_pos hz, dot3, Matrix.cons_val_zero, Matrix.cons_val_one,
      Matrix.head_cons, Matrix.cons_val_two, Matrix.tail_cons]
    field_simp
    linear_combination (wo 0) * h'
  · have hz' : 0 ≤ wo 2 := le_of_not_lt hz
    have hne : (1 : ℝ) + wo 2 ≠ 0 := by linarith
    simp only [if_neg hz, dot3, Matrix.cons_val_zero, Matrix.cons_val_one,
      Matrix.head_cons, Matrix.cons_val_two, Matrix.tail_cons]
    field_simp
    linear_combination (-(wo 0)) * h'

/-- The second vector built by `coordinateSystem` is orthogonal to a unit
input vector. -/
lemma dot3_coordinateSystem_snd (wo : V3) (h : dot3 wo wo = 1) :
    dot3 wo (coordinateSystem wo).2 = 0 := by
  have h' : wo 0 * wo 0 + wo 1 * wo 1 + wo 2 * wo 2 = 1 := h
  unfold coordinateSystem
  by_cases hz : wo 2 < 0
  · have hne : (-1 : ℝ) + wo 2 ≠ 0 := by linarith
    simp only [if_pos hz, dot3, Matrix.cons_val_zero, Matrix.cons_val_one,
      Matrix.head_cons, Matrix.cons_val_two, Matrix.tail_cons]
    field_simp
    linear_combination (wo 1 - wo 1 * wo 2) * h'
  · have hz' : 0 ≤ wo 2 := le_of_not_lt hz
    have hne : (1 : ℝ) + wo 2 ≠ 0 := by linarith
    simp only [if_neg hz, dot3, Matrix.cons_val_zero, Matrix.cons_val_one,
      Matrix.head_cons, Matrix.cons_val_two, Matrix.tail_cons]
    field_simp
    linear_combination (-(wo 1) - wo 1 * wo 2) * h'

/-- For a unit vector `wo`, the cosine of a direction expressed in the frame
with z-axis `wo` against `wo` itself is the local z-coordinate. -/
lemma dot3_fromLocalZ (wo v : V3) (h : dot3 wo wo = 1) :
    dot3 wo (fromLocalZ wo v) = v 2 := by
  have h' : wo 0 * wo 0 + wo 1 * wo 1 + wo 2 * wo 2 = 1 := h
  have h1 := dot3_coordinateSystem_fst wo h
  have h2 := dot3_coordinateSystem_snd wo h
  unfold dot3 at h1 h2 ⊢
  unfold fromLocalZ
  linear_combination (v 0) * h1 + (v 1) * h2 + (v 2) * h'

/-- C9: for unit directions, `HGPhaseFunction::PDF` coincides with
`HGPhaseFunction::p`, and the `p` and `pdf` fields of the sample returned by
`HGPhaseFunction::Sample_p` both equal `p` (and hence `PDF`) evaluated at
`wo` and the sampled direction. -/
theorem hg_pdf_eq_p_and_sample_pdf (hg : HGPhaseFunction) (wo wi : V3) (u : ℝ × ℝ)
    (h : dot3 wo wo = 1) :
    hg.PDF wo wi = hg.p wo wi ∧
    (hg.Sample_p wo u).pdf = hg.p wo (hg.Sample_p wo u).wi ∧
    (hg.Sample_p wo u).p = hg.PDF wo (hg.Sample_p wo u).wi := by
  have key : (SampleHenyeyGreenstein wo hg.g u).2 =
      HenyeyGreenstein (dot3 wo (SampleHenyeyGreenstein wo hg.g u).1) hg.g := by
    simp only [SampleHenyeyGreenstein]
    rw [dot3_fromLocalZ wo _ h]
    simp [sphericalDirection]
  exact ⟨rfl, key, key⟩

/-- Witness for `hg_pdf_eq_p_and_sample_pdf` at the concrete unit direction
`wo = (0, 0, 1)` with `g = 1/2` and `u = (1/3, 1/4)`. -/
theorem hg_pdf_eq_p_and_sample_pdf_witness :
    dot3 ![0, 0, 1] ![0, 0, 1] = 1 ∧
    ((⟨1/2⟩ : HGPhaseFunction).PDF ![0, 0, 1] ![1, 0, 0] =
      (⟨1/2⟩ : HGPhaseFunction).p ![0, 0, 1] ![1, 0, 0] ∧
    ((⟨1/2⟩ : HGPhaseFunction).Sample_p ![0, 0, 1] (1/3, 1/4)).pdf =
      (⟨1/2⟩ : HGPhaseFunction).p ![0, 0, 1]
        ((⟨1/2⟩ : HGPhaseFunction).Sample_p ![0, 0, 1] (1/3, 1/4)).wi ∧
    ((⟨1/2⟩ : HGPhaseFunction).Sample_p ![0, 0, 1] (1/3, 1/4)).p =
      (⟨1/2⟩ : HGPhaseFunction).PDF ![0, 0, 1]
        ((⟨1/2⟩ : HGPhaseFunction).Sample_p ![0, 0, 1] (1/3, 1/4)).wi) := by
  have h : dot3 ![(0 : ℝ), 0, 1] ![0, 0, 1] = 1 := by
    simp [dot3]
  exact ⟨h, hg_pdf_eq_p_and_sample_pdf ⟨1/2⟩ ![0, 0, 1] ![1, 0, 0] (1/3, 1/4) h⟩

/-! ### Homogeneous medium -/

/-- Homogeneous medium, modelling the class `HomogeneousMedium`.  The stored
`DenselySampledSpectrum` members are modelled by their `Sample` interface: a
function from the (opaque) wavelength set `Λ` to a sampled spectrum; the
constructor's `sigScale`/`LeScale` scaling is already folded into the stored
spectra, exactly as in the source. -/
structure HomogeneousMedium (Λ : Type) where
  sigma_a_spec : Λ → Spec
  sigma_s_spec : Λ → Spec
  Le_spec : Λ → Spec
  g : ℝ

/-- Callback invocation record for the homogeneous medium: the sampled
distance `t`, the interaction point, the transmittance-to-majorant factor
and the emission carried by the `MediumSample` handed to the callback. -/
structure HomEvent where
  t : ℝ
  p : V3
  T_maj : Spec
  Le : Spec

/-- Result of `HomogeneousMedium::SampleT_maj`: the exponential distance the
code draws (`none` when the zero-majorant short circuit is taken), the list
of callback invocations, the returned spectrum, and the RNG cursor after the
call (the source takes `RNG &rng` but never draws from it). -/
structure HomResult where
  tSample : Option ℝ
  events : List HomEvent
  value : Spec
  rngIdx : ℕ

/-- Majorant-based free-flight sampling of the homogeneous medium, modelling
`HomogeneousMedium::SampleT_maj`.  The RNG is modelled as a stream
`rng : ℕ → ℝ` with cursor `rngIdx`; the body never reads it, as in the
source.  The `IsInf(tMax)` clamp of the source is a guard against IEEE
infinity and has no counterpart over `ℝ`, where `tMax` is always finite. -/
def HomogeneousMedium.SampleT_maj {Λ : Type} (m : HomogeneousMedium Λ) (ray : Ray)
    (tMax u : ℝ) (rng : ℕ → ℝ) (rngIdx : ℕ) (lambda : Λ) : HomResult :=
  let tMax' := tMax * length3 ray.d
  let d := normalize3 ray.d
  let sigma_a := m.sigma_a_spec lambda
  let sigma_s := m.sigma_s_spec lambda
  let sigma_t : Spec := fun i => sigma_a i + sigma_s i
  let sigma_maj := sigma_t
  if sigma_maj 0 = 0 then ⟨none, [], specExpFactor sigma_maj tMax', rngIdx⟩
  else
    let t := SampleExponential u (sigma_maj 0)
    if t < tMax' then
      ⟨some t, [⟨t, rayAt ray.o d t, specExpFactor sigma_maj t, m.Le_spec lambda⟩],
       1, rngIdx⟩
    else ⟨some t, [], specExpFactor sigma_maj tMax', rngIdx⟩

/-- C8: `HomogeneousMedium::SampleT_maj` is deterministic.  Its sampled
distance, callback invocations and return value are a pure function of the
ray, `tMax`, `u` and the wavelength set: they agree for any two RNG streams
and cursors, and the RNG cursor is returned unchanged (the source never
draws from `rng`). -/
theorem hom_sampleT_maj_deterministic {Λ : Type} (m : HomogeneousMedium Λ) (ray : Ray)
    (tMax u : ℝ) (rng₁ rng₂ : ℕ → ℝ) (j₁ j₂ : ℕ) (lambda : Λ) :
    (m.SampleT_maj ray tMax u rng₁ j₁ lambda).tSample =
      (m.SampleT_maj ray tMax u rng₂ j₂ lambda).tSample ∧
    (m.SampleT_maj ray tMax u rng₁ j₁ lambda).events =
      (m.SampleT_maj ray tMax u rng₂ j₂ lambda).events ∧
    (m.SampleT_maj ray tMax u rng₁ j₁ lambda).value =
      (m.SampleT_maj ray tMax u rng₂ j₂ lambda).value ∧
    (m.SampleT_maj ray tMax u rng₁ j₁ lambda).rngIdx = j₁ := by
  simp only [HomogeneousMedium.SampleT_maj]
  split_ifs <;> exact ⟨rfl, rfl, rfl, rfl⟩

/-- C4 (confirmed): for the homogeneous medium with non-zero majorant, if the
sampled exponential distance `t` lies strictly below the rescaled `tMax`,
the callback is invoked exactly once, with transmittance-to-majorant factor
`FastExp(-t * sigma_maj)`, and the function returns the constant spectrum 1;
otherwise the callback is never invoked and the function returns
`FastExp(-tMax * sigma_maj)` for the rescaled `tMax`. -/
theorem hom_sampleT_maj_event_branches {Λ : Type} (m : HomogeneousMedium Λ) (ray : Ray)
    (tMax u : ℝ) (rng : ℕ → ℝ) (j : ℕ) (lambda : Λ)
    (hz : m.sigma_a_spec lambda 0 + m.sigma_s_spec lambda 0 ≠ 0) :
    (SampleExponential u (m.sigma_a_spec lambda 0 + m.sigma_s_spec lambda 0) <
        tMax * length3 ray.d →
      (m.SampleT_maj ray tMax u rng j lambda).events.map HomEvent.T_maj =
        [specExpFactor (fun i => m.sigma_a_spec lambda i + m.sigma_s_spec lambda i)
          (SampleExponential u (m.sigma_a_spec lambda 0 + m.sigma_s_spec lambda 0))] ∧
      (m.SampleT_maj ray tMax u rng j lambda).value = 1) ∧
    (tMax * length3 ray.d ≤
        SampleExponential u (m.sigma_a_spec lambda 0 + m.sigma_s_spec lambda 0) →
      (m.SampleT_maj ray tMax u rng j lambda).events = [] ∧
      (m.SampleT_maj ray tMax u rng j lambda).value =
        specExpFactor (fun i => m.sigma_a_spec lambda i + m.sigma_s_spec lambda i)
          (tMax * length3 ray.d)) := by
  simp only [HomogeneousMedium.SampleT_maj]
  rw [if_neg hz]
  constructor
  · intro ht
    rw [if_pos ht]
    exact ⟨rfl, rfl⟩
  · intro ht
    rw [if_neg (not_lt.mpr ht)]
    exact ⟨rfl, rfl⟩

/-- Witness for `hom_sampleT_maj_event_branches` at a concrete homogeneous
medium with unit extinction and a concrete ray. -/
theorem hom_sampleT_maj_event_branches_witness :
    ((0 : ℝ) + 1 ≠ 0) ∧
    ((SampleExponential (1/2) ((0 : ℝ) + 1) < 5 * length3 ![1, 0, 0] →
      ((⟨fun _ _ => 0, fun _ _ => 1, fun _ _ => 0, 0⟩ :
          HomogeneousMedium Unit).SampleT_maj ⟨![0, 0, 0], ![1, 0, 0], 0⟩ 5 (1/2)
          (fun _ => 0) 0 ()).events.map HomEvent.T_maj =
        [specExpFactor (fun _ => (0 : ℝ) + 1) (SampleExponential (1/2) ((0 : ℝ) + 1))] ∧
      ((⟨fun _ _ => 0, fun _ _ => 1, fun _ _ => 0, 0⟩ :
          HomogeneousMedium Unit).SampleT_maj ⟨![0, 0, 0], ![1, 0, 0], 0⟩ 5 (1/2)
          (fun _ => 0) 0 ()).value = 1) ∧
    (5 * length3 ![1, 0, 0] ≤ SampleExponential (1/2) ((0 : ℝ) + 1) →
      ((⟨fun _ _ => 0, fun _ _ => 1, fun _ _ => 0, 0⟩ :
          HomogeneousMedium Unit).SampleT_maj ⟨![0, 0, 0], ![1, 0, 0], 0⟩ 5 (1/2)
          (fun _ => 0) 0 ()).events = [] ∧
      ((⟨fun _ _ => 0, fun _ _ => 1, fun _ _ => 0, 0⟩ :
          HomogeneousMedium Unit).SampleT_maj ⟨![0, 0, 0], ![1, 0, 0], 0⟩ 5 (1/2)
          (fun _ => 0) 0 ()).value =
        specExpFactor (fun _ => (0 : ℝ) + 1) (5 * length3 ![1, 0, 0]))) :=
  ⟨by norm_num,
   hom_sampleT_maj_event_branches (Λ := Unit) ⟨fun _ _ => 0, fun _ _ => 1, fun _ _ => 0, 0⟩
     ⟨![0, 0, 0], ![1, 0, 0], 0⟩ 5 (1/2) (fun _ => 0) 0 () (by norm_num)⟩

/-- C3 (amended): `HomogeneousMedium::SampleT_maj` draws its single
exponential free-flight distance at a rate equal to the
scattering-plus-absorption coefficient at the first sampled wavelength
(`sigma_maj[0]`), not at the maximum across the sampled wavelengths. -/
theorem hom_free_flight_rate_first_wavelength {Λ : Type} (m : HomogeneousMedium Λ)
    (ray : Ray) (tMax u : ℝ) (rng : ℕ → ℝ) (j : ℕ) (lambda : Λ)
    (hz : m.sigma_a_spec lambda 0 + m.sigma_s_spec lambda 0 ≠ 0) :
    (m.SampleT_maj ray tMax u rng j lambda).tSample =
      some (SampleExponential u
        (m.sigma_a_spec lambda 0 + m.sigma_s_spec lambda 0)) := by
  simp only [HomogeneousMedium.SampleT_maj]
  rw [if_neg hz]
  split_ifs <;> rfl

/-- Witness for `hom_free_flight_rate_first_wavelength` at a concrete
homogeneous medium with unit extinction. -/
theorem hom_free_flight_rate_first_wavelength_witness :
    ((0 : ℝ) + 1 ≠ 0) ∧
    ((⟨fun _ _ => 0, fun _ _ => 1, fun _ _ => 0, 0⟩ :
        HomogeneousMedium Unit).SampleT_maj ⟨![0, 0, 0], ![1, 0, 0], 0⟩ 5 (1/2)
        (fun _ => 0) 0 ()).tSample = some (SampleExponential (1/2) ((0 : ℝ) + 1)) :=
  ⟨by norm_num,
   hom_free_flight_rate_first_wavelength (Λ := Unit)
     ⟨fun _ _ => 0, fun _ _ => 1, fun _ _ => 0, 0⟩
     ⟨![0, 0, 0], ![1, 0, 0], 0⟩ 5 (1/2) (fun _ => 0) 0 () (by norm_num)⟩

/-- C3 (counterexample): for a homogeneous medium whose extinction spectrum
is `(1, 2, 2, 2)` across the four sampled wavelengths, the exponential
distance drawn by `SampleT_maj` differs from the distance the claim
prescribes, namely one drawn at the maximum scattering-plus-absorption
coefficient across the sampled wavelengths. -/
theorem hom_majorant_not_max_wavelength_cex :
    ((⟨fun _ _ => 0, fun _ => ![1, 2, 2, 2], fun _ _ => 0, 0⟩ :
        HomogeneousMedium Unit).SampleT_maj ⟨![0, 0, 0], ![1, 0, 0], 0⟩ 10 (1/2)
        (fun _ => 0) 0 ()).tSample ≠
      some (SampleExponential (1/2)
        (specMax (fun i => (0 : ℝ) + ![1, 2, 2, 2] i))) := by
  have hmax : specMax (fun i => (0 : ℝ) + ![1, 2, 2, 2] i) = 2 := by
    norm_num [specMax]
  have hlog : Real.log (1 - (1/2 : ℝ)) = -Real.log 2 := by
    rw [show (1 : ℝ) - 1/2 = 2⁻¹ by norm_num, Real.log_inv]
  have hpos : 0 < Real.log 2 := Real.log_pos (by norm_num)
  simp only [HomogeneousMedium.SampleT_maj, hmax]
  rw [if_neg (by norm_num : ¬((0 : ℝ) + ![1, 2, 2, 2] 0 = 0))]
  split_ifs <;>
  · simp only [SampleExponential, hlog, Option.some.injEq]
    norm_num
    intro h
    linarith

/-! ### Cloud density provider -/

/-- Axis-aligned bounding box, modelling pbrt's `Bounds3f`. -/
structure Bounds3 where
  pMin : V3
  pMax : V3

/-- Diagonal of a bounding box, modelling `Bounds3f::Diagonal`. -/
def Bounds3.Diagonal (b : Bounds3) : V3 := fun i => b.pMax i - b.pMin i

/-- Modelled from the spec: `Bounds3f::Offset(p)` returns the coordinates of
`p` relative to the box, with the division skipped on degenerate axes as in
pbrt's implementation. -/
def Bounds3.Offset (b : Bounds3) (p : V3) : V3 := fun i =>
  if b.pMin i < b.pMax i then (p i - b.pMin i) / (b.pMax i - b.pMin i)
  else p i - b.pMin i

/-- Per-point density multipliers, modelling pbrt's `MediumDensity` (one
sampled spectrum each for absorption and scattering; the one-argument
constructor uses the same value for both). -/
structure MediumDensity where
  sigma_a : Spec
  sigma_s : Spec

/-- Cloud density provider, modelling the class `CloudMediumProvider`. -/
structure CloudMediumProvider where
  bounds : Bounds3
  density : ℝ
  wispiness : ℝ
  frequency : ℝ

/-- Density of the procedural cloud provider, modelling
`CloudMediumProvider::Density`.  The pbrt noise functions `Noise` and
`DNoise` are not part of the given source and enter as parameters; the two
domain-warp octaves and the five value-noise octaves of the source are
unrolled (`vomega` halves and `vlambda` scales by 1.99 per octave). -/
def CloudMediumProvider.Density (noise : V3 → ℝ) (dnoise : V3 → V3)
    (c : CloudMediumProvider) (p : V3) : ℝ :=
  let pp0 : V3 := fun i => c.frequency * p i
  let pp : V3 :=
    if 0 < c.wispiness then
      let vomega0 : ℝ := 0.05 * c.wispiness
      let vlambda0 : ℝ := 10
      let pp1 : V3 := fun i => pp0 i + vomega0 * dnoise (fun j => vlambda0 * pp0 j) i
      let vomega1 := vomega0 * 0.5
      let vlambda1 := vlambda0 * 1.99
      fun i => pp1 i + vomega1 * dnoise (fun j => vlambda1 * pp1 j) i
    else pp0
  let d1 : ℝ := 0 + 0.5 * noise (fun j => 1 * pp j)
  let d2 : ℝ := d1 + 0.5 * 0.5 * noise (fun j => 1 * 1.99 * pp j)
  let d3 : ℝ := d2 + 0.5 * 0.5 * 0.5 * noise (fun j => 1 * 1.99 * 1.99 * pp j)
  let d4 : ℝ := d3 + 0.5 * 0.5 * 0.5 * 0.5 * noise (fun j => 1 * 1.99 * 1.99 * 1.99 * pp j)
  let d5 : ℝ := d4 +
    0.5 * 0.5 * 0.5 * 0.5 * 0.5 * noise (fun j => 1 * 1.99 * 1.99 * 1.99 * 1.99 * pp j)
  let dAlt := Clamp ((1 - p 1) * 4.5 * c.density * d5) 0 1
  Clamp (dAlt + 2 * max 0 (0.5 - p 1)) 0 1

/-- Majorant grid of the cloud provider, modelling
`CloudMediumProvider::GetMaxDensityGrid`: resolution `(1, 1, 1)` and a
single cell holding the value 1. -/
def CloudMediumProvider.GetMaxDensityGrid (_ : CloudMediumProvider) :
    List ℝ × (Fin 3 → ℕ) :=
  ([1], fun _ => 1)

/-- Values of `Clamp` with bounds `0` and `1` lie in `[0, 1]`. -/
lemma Clamp_zero_one_mem (x : ℝ) : 0 ≤ Clamp x 0 1 ∧ Clamp x 0 1 ≤ 1 := by
  unfold Clamp
  split_ifs <;> constructor <;> linarith

/-- The cloud provider's density is always in `[0, 1]` for every point
and every pair of noise functions, its majorant grid is the single cell
`[1]` at resolution `(1, 1, 1)`, and hence the density never exceeds the
majorant value of the (unique) cell containing the point. -/
theorem cloud_density_bounded_by_majorant (noise : V3 → ℝ) (dnoise : V3 → V3)
    (c : CloudMediumProvider) (p : V3) :
    0 ≤ c.Density noise dnoise p ∧ c.Density noise dnoise p ≤ 1 ∧
    c.GetMaxDensityGrid = ([1], fun _ => 1) ∧
    c.Density noise dnoise p ≤ c.GetMaxDensityGrid.1.headI := by
  refine ⟨?_, ?_, rfl, ?_⟩
  · exact (Clamp_zero_one_mem _).1
  · exact (Clamp_zero_one_mem _).2
  · simp only [CloudMediumProvider.GetMaxDensityGrid, List.headI]
    exact (Clamp_zero_one_mem _).2

/-! ### Cuboid medium: bounds intersection -/

/-- Modelled from the spec: one slab of pbrt's `Bounds3f::IntersectP`.  A zero
direction component (which produces IEEE infinities in the source and
constrains nothing when the origin lies inside the slab, everything when
outside) is modelled by an explicit containment test. -/
def slabAxis (b : Bounds3) (o d : V3) (i : Fin 3) (tr : ℝ × ℝ) : Option (ℝ × ℝ) :=
  if d i = 0 then
    if o i < b.pMin i ∨ b.pMax i < o i then none else some tr
  else
    let tNear := (b.pMin i - o i) / d i
    let tFar := (b.pMax i - o i) / d i
    let t0 := max tr.1 (min tNear tFar)
    let t1 := min tr.2 (max tNear tFar)
    if t1 < t0 then none else some (t0, t1)

/-- Modelled from the spec: `Bounds3f::IntersectP(o, d, raytMax, &t0, &t1)`,
the slab test clipping the parametric range to `[0, raytMax]`; returns the
hit interval, or `none` on a miss. -/
def Bounds3.IntersectP (b : Bounds3) (o d : V3) (raytMax : ℝ) : Option (ℝ × ℝ) :=
  ((slabAxis b o d 0 (0, raytMax)).bind fun tr => slabAxis b o d 1 tr).bind fun tr =>
    slabAxis b o d 2 tr

/-! ### Cuboid medium: data model -/

/-- Density provider consumed by `CuboidMedium`, modelling the capability
set `Bounds / Density / Le / GetMaxDensityGrid` of the `CuboidProvider`
template parameter.  The majorant grid is the pair of the cell-value
function (indexed by the flattened offset the walk computes) and the grid
resolution, both fixed at construction as in the source. -/
structure CuboidProvider (Λ : Type) where
  Bounds : Bounds3
  Density : V3 → Λ → MediumDensity
  Le : V3 → Λ → Spec
  maxDensityGrid : ℤ → ℝ
  gridResolution : Fin 3 → ℕ

/-- Cuboid medium, modelling the class `CuboidMedium`.  The stored spectra
are modelled by their `Sample` interface; the render-from-medium transform
is modelled by its action on points (`toRender`) and by the inverse action
on ray origins and directions (`invPoint`, `invDir`), which is all the
sampling code uses of it. -/
structure CuboidMedium (Λ : Type) where
  provider : CuboidProvider Λ
  sigma_a_spec : Λ → Spec
  sigma_s_spec : Λ → Spec
  sigScale : ℝ
  toRender : V3 → V3
  invPoint : V3 → V3
  invDir : V3 → V3

/-- Callback invocation record, modelling the `MediumSample` (with its
`MediumInteraction`) passed to the callback by `CuboidMedium::SampleT_maj`;
the fields are those the walk computes at a reported collision. -/
@[ext]
structure MediumSampleRec where
  pRender : V3
  T_maj : Spec
  sigmap_a : Spec
  sigmap_s : Spec
  sigma_maj : Spec
  Le : Spec

/-- Constants of one `CuboidMedium::SampleT_maj` call: everything the walk
reads but never writes. -/
@[ext]
structure WalkCtx where
  tMax : ℝ
  sigma_t : Spec
  sigma_a : Spec
  sigma_s : Spec
  grid : ℤ → ℝ
  res : Fin 3 → ℕ
  step : Fin 3 → ℤ
  voxelLimit : Fin 3 → ℤ
  deltaT : Fin 3 → ℝ
  dGrid : Fin 3 → ℝ
  o : V3
  d : V3
  rng : ℕ → ℝ
  cb : ℕ → MediumSampleRec → Bool
  innerFuel : ℕ
  density : V3 → MediumDensity
  LeF : V3 → Spec
  toRender : V3 → V3

/-- Mutable state of the DDA walk of `CuboidMedium::SampleT_maj`: the
current voxel, per-axis next-crossing distances, segment start `t0`, the
pending uniform sample `u`, the RNG cursor, the accumulated
transmittance-to-majorant factor `T_majAccum`, the list of factors
multiplied into it since the last reported collision (ghost state used to
state what the returned value is), and the callback invocations so far. -/
@[ext]
structure WState where
  voxel : Fin 3 → ℤ
  nextCrossingT : Fin 3 → ℝ
  t0 : ℝ
  u : ℝ
  ri : ℕ
  T_majAccum : Spec
  tail : List Spec
  events : List MediumSampleRec

/-- Result of `CuboidMedium::SampleT_maj`: the returned spectrum, the
callback invocations, the ghost factor list, the voxels read from the
majorant grid in order, whether the callback stopped the walk, and the two
fuel-exhaustion flags of the embedding (the source loops unboundedly). -/
@[ext]
structure WalkResult where
  value : Spec
  events : List MediumSampleRec
  tailFactors : List Spec
  visited : List (Fin 3 → ℤ)
  stopped : Bool
  innerAborted : Bool
  outerAborted : Bool

/-- Flattened offset into the majorant grid,
`voxel[0] + res.x * (voxel[1] + res.y * voxel[2])` as in the source. -/
def offsetOf (res : Fin 3 → ℕ) (v : Fin 3 → ℤ) : ℤ :=
  v 0 + (res 0 : ℤ) * (v 1 + (res 1 : ℤ) * v 2)

/-- Comparison-bit lookup table of the source,
`cmpToAxis[8] = (2, 1, 2, 1, 2, 2, 0, 0)`, written as the equivalent nested
conditional on the bit pattern. -/
def cmpToAxis (bits : ℕ) : Fin 3 :=
  if bits = 6 ∨ bits = 7 then 0 else if bits = 1 ∨ bits = 3 then 1 else 2

/-- Comparison `nextCrossingT[i] < nextCrossingT[j]` of the source, with the
IEEE-infinity behaviour of a zero grid-direction component made explicit: an
axis with zero direction has infinite next-crossing distance, so it is never
the smaller side unless the other axis is also infinite. -/
def ncLT (C : WalkCtx) (s : WState) (i j : Fin 3) : Prop :=
  C.dGrid i ≠ 0 ∧ (C.dGrid j = 0 ∨ s.nextCrossingT i < s.nextCrossingT j)

instance (C : WalkCtx) (s : WState) (i j : Fin 3) : Decidable (ncLT C s i j) := by
  unfold ncLT; infer_instance

/-- Axis stepped next by the DDA, via the comparison bits and `cmpToAxis` as
in the source. -/
def stepAxisOf (C : WalkCtx) (s : WState) : Fin 3 :=
  cmpToAxis ((if ncLT C s 0 1 then 4 else 0) + (if ncLT C s 0 2 then 2 else 0) +
    (if ncLT C s 1 2 then 1 else 0))

/-- Result of the per-voxel rejection-sampling loop (the inner
`while (true)` of `CuboidMedium::SampleT_maj`). -/
@[ext]
structure InnerRes where
  t0 : ℝ
  u : ℝ
  ri : ℕ
  T_majAccum : Spec
  tail : List Spec
  events : List MediumSampleRec
  stopped : Bool
  aborted : Bool

/-- Per-voxel sampling loop of `CuboidMedium::SampleT_maj` (source lines
drawing `t = t0 + SampleExponential(u, sigma_maj[0])`, refreshing `u` from
the RNG, breaking at `t >= t1` with the residual transmittance factor,
reporting a collision at `t < tMax` and stopping if the callback returns
false).  Recursion is on an explicit fuel; exhaustion sets `aborted`. -/
def innerLoop (C : WalkCtx) (sigma_maj : Spec) (t1 : ℝ) :
    ℕ → ℝ → ℝ → ℕ → Spec → List Spec → List MediumSampleRec → InnerRes
  | 0, t0, u, ri, Tacc, tail, evs => ⟨t0, u, ri, Tacc, tail, evs, false, true⟩
  | Nat.succ fuel, t0, u, ri, Tacc, tail, evs =>
    let t := t0 + SampleExponential u (sigma_maj 0)
    let u' := C.rng ri
    let ri' := ri + 1
    if t1 ≤ t then
      ⟨t, u', ri', Tacc * specExpFactor sigma_maj (t1 - t0),
       tail ++ [specExpFactor sigma_maj (t1 - t0)], evs, false, false⟩
    else if t < C.tMax then
      let p : V3 := rayAt C.o C.d t
      let dd := C.density p
      let msr : MediumSampleRec :=
        ⟨C.toRender p, specExpFactor sigma_maj (t - t0) * Tacc,
         (fun i => C.sigma_a i * dd.sigma_a i), (fun i => C.sigma_s i * dd.sigma_s i),
         sigma_maj, C.LeF p⟩
      if C.cb evs.length msr then
        innerLoop C sigma_maj t1 fuel t u' ri' 1 [] (evs ++ [msr])
      else ⟨t, u', ri', Tacc, tail, evs ++ [msr], true, false⟩
    else
      innerLoop C sigma_maj t1 fuel t u' ri' Tacc tail evs

/-- Advance-to-next-voxel step of the DDA (source lines checking
`nextCrossingT[stepAxis] > tMax`, stepping `voxel[stepAxis]`, breaking at
`voxelLimit`, bumping `nextCrossingT` by `deltaT` and setting `t0 = t1`);
returns either the final walk result or the next state. -/
def advanceStep (C : WalkCtx) (sa : Fin 3) (t1 : ℝ) (s : WState) :
    WalkResult ⊕ WState :=
  if C.tMax < s.nextCrossingT sa then
    Sum.inl ⟨s.T_majAccum, s.events, s.tail, [], false, false, false⟩
  else if s.voxel sa + C.step sa = C.voxelLimit sa then
    Sum.inl ⟨s.T_majAccum, s.events, s.tail, [], false, false, false⟩
  else
    Sum.inr { s with voxel := Function.update s.voxel sa (s.voxel sa + C.step sa),
                     nextCrossingT := Function.update s.nextCrossingT sa
                       (s.nextCrossingT sa + C.deltaT sa),
                     t0 := t1 }

/-- Record the head voxel in the visited list of a walk result. -/
def consVisited (v : Fin 3 → ℤ) (r : WalkResult) : WalkResult :=
  { r with visited := v :: r.visited }

/-- Outer voxel walk of `CuboidMedium::SampleT_maj` (the
`while (true)` loop walking the majorant grid): per iteration it selects the
step axis, clips `t1` to `tMax`, reads the majorant cell, either folds the
closed-form transmittance over `[t0, t1]` when the voxel majorant's first
sample is zero or runs the per-voxel sampling loop, and then advances.
Recursion is on fuel supplied by the caller. -/
def walkLoop (C : WalkCtx) : ℕ → WState → WalkResult
  | 0, s => ⟨s.T_majAccum, s.events, s.tail, [], false, false, true⟩
  | Nat.succ fuel, s =>
    let sa := stepAxisOf C s
    let t1 := min C.tMax (s.nextCrossingT sa)
    let sigma_maj : Spec := fun i => C.sigma_t i * C.grid (offsetOf C.res s.voxel)
    if sigma_maj 0 = 0 then
      let s1 := { s with T_majAccum := s.T_majAccum * specExpFactor sigma_maj (t1 - s.t0),
                         tail := s.tail ++ [specExpFactor sigma_maj (t1 - s.t0)] }
      match advanceStep C sa t1 s1 with
      | Sum.inl r => consVisited s.voxel r
      | Sum.inr s2 => consVisited s.voxel (walkLoop C fuel s2)
    else
      let ir := innerLoop C sigma_maj t1 C.innerFuel s.t0 s.u s.ri s.T_majAccum s.tail
        s.events
      if ir.stopped then consVisited s.voxel ⟨1, ir.events, ir.tail, [], true, false, false⟩
      else if ir.aborted then
        consVisited s.voxel ⟨ir.T_majAccum, ir.events, ir.tail, [], false, true, false⟩
      else
        let s1 := { s with t0 := ir.t0, u := ir.u, ri := ir.ri,
                           T_majAccum := ir.T_majAccum, tail := ir.tail,
                           events := ir.events }
        match advanceStep C sa t1 s1 with
        | Sum.inl r => consVisited s.voxel r
        | Sum.inr s2 => consVisited s.voxel (walkLoop C fuel s2)

/-- Walk context and initial state set up by `CuboidMedium::SampleT_maj`
once the medium-space ray `o + t d` (with unit `d`) hits the medium bounds
in `[tMin, tMax]` (source lines building `rayGrid`, `gridIntersect`,
`voxel`, `deltaT`, `step`, `voxelLimit` and `nextCrossingT`).  The source's
canonicalization of `-0.f` to `0.f` makes a zero component take the
non-negative branch, as `0 ≤ 0` does here; `deltaT` and `nextCrossingT` of
an axis with zero grid direction are junk values (IEEE infinities in the
source) that the walk never reads, `ncLT` treating such an axis as
infinitely far. -/
def mkWalkCtx {Λ : Type} (m : CuboidMedium Λ) (rayO d : V3) (tMin tMax : ℝ)
    (rng : ℕ → ℝ) (lambda : Λ) (cb : ℕ → MediumSampleRec → Bool) (innerFuel : ℕ)
    (u : ℝ) : WalkCtx × WState :=
  let bounds := m.provider.Bounds
  let sigma_a : Spec := fun i => m.sigScale * m.sigma_a_spec lambda i
  let sigma_s : Spec := fun i => m.sigScale * m.sigma_s_spec lambda i
  let sigma_t : Spec := fun i => sigma_a i + sigma_s i
  let diag := bounds.Diagonal
  let gridD : V3 := fun i => d i / diag i
  let res := m.provider.gridResolution
  let gridIntersect : V3 := fun i => bounds.Offset rayO i + tMin * gridD i
  let voxel : Fin 3 → ℤ := fun i =>
    ⌊Clamp (gridIntersect i * (res i : ℝ)) 0 ((res i : ℝ) - 1)⌋
  let deltaT : Fin 3 → ℝ := fun i => 1 / |gridD i * (res i : ℝ)|
  let step : Fin 3 → ℤ := fun i => if 0 ≤ gridD i then 1 else -1
  let voxelLimit : Fin 3 → ℤ := fun i => if 0 ≤ gridD i then (res i : ℤ) else -1
  let nc : Fin 3 → ℝ := fun i =>
    if 0 ≤ gridD i then
      tMin + (((voxel i : ℝ) + 1) / (res i : ℝ) - gridIntersect i) / gridD i
    else tMin + ((voxel i : ℝ) / (res i : ℝ) - gridIntersect i) / gridD i
  (⟨tMax, sigma_t, sigma_a, sigma_s, m.provider.maxDensityGrid, res, step, voxelLimit,
    deltaT, gridD, rayO, d, rng, cb, innerFuel,
    (fun p => m.provider.Density p lambda), (fun p => m.provider.Le p lambda),
    m.toRender⟩,
   ⟨voxel, nc, tMin, u, 0, 1, [], []⟩)

/-- Majorant-based free-flight sampling of the cuboid medium, modelling
`CuboidMedium::SampleT_maj`: transform the ray to medium space, rescale
`raytMax` by the direction length and normalize, intersect the medium
bounds (full transmittance on a miss), then walk the majorant grid.  The
outer loop's fuel is `res.x + res.y + res.z + 1`, proved sufficient by the
termination theorem; `innerFuel` budgets each per-voxel sampling loop. -/
def CuboidMedium.SampleT_maj {Λ : Type} (m : CuboidMedium Λ) (rRender : Ray)
    (raytMax u : ℝ) (rng : ℕ → ℝ) (lambda : Λ) (cb : ℕ → MediumSampleRec → Bool)
    (innerFuel : ℕ) : WalkResult :=
  let rayO := m.invPoint rRender.o
  let rayD0 := m.invDir rRender.d
  let raytMax' := raytMax * length3 rayD0
  let d := normalize3 rayD0
  match m.provider.Bounds.IntersectP rayO d raytMax' with
  | none => ⟨1, [], [], [], false, false, false⟩
  | some (tMin, tMax) =>
    let CS := mkWalkCtx m rayO d tMin tMax rng lambda cb innerFuel u
    walkLoop CS.1 (CS.1.res 0 + CS.1.res 1 + CS.1.res 2 + 1) CS.2

/-! ### Walk lemmas -/

/-- Characterization of the early-return cases of `advanceStep`. -/
lemma advanceStep_inl {C : WalkCtx} {sa : Fin 3} {t1 : ℝ} {s : WState} {r : WalkResult}
    (h : advanceStep C sa t1 s = Sum.inl r) :
    r = ⟨s.T_majAccum, s.events, s.tail, [], false, false, false⟩ := by
  unfold advanceStep at h
  split_ifs at h
  · exact (Sum.inl.inj h).symm
  · exact (Sum.inl.inj h).symm

/-- Characterization of the continue case of `advanceStep`. -/
lemma advanceStep_inr {C : WalkCtx} {sa : Fin 3} {t1 : ℝ} {s : WState} {s2 : WState}
    (h : advanceStep C sa t1 s = Sum.inr s2) :
    s2.voxel = Function.update s.voxel sa (s.voxel sa + C.step sa) ∧
    s2.events = s.events ∧ s2.T_majAccum = s.T_majAccum ∧ s2.tail = s.tail ∧
    s.voxel sa + C.step sa ≠ C.voxelLimit sa := by
  unfold advanceStep at h
  split_ifs at h with h1 h2
  have h' := Sum.inr.inj h
  subst h'
  exact ⟨rfl, rfl, rfl, rfl, h2⟩

/-- Every path of the voxel walk that sets the `stopped` flag returns the
constant spectrum 1. -/
lemma walkLoop_stopped_value (C : WalkCtx) (fuel : ℕ) :
    ∀ s : WState, (walkLoop C fuel s).stopped = true → (walkLoop C fuel s).value = 1 := by
  induction fuel with
  | zero => intro s h; simp [walkLoop] at h
  | succ n ih =>
    intro s
    simp only [walkLoop]
    split
    · split
      · intro h
        rename_i r heq
        rw [advanceStep_inl heq] at h
        simp [consVisited] at h
      · intro h
        rename_i s2 heq
        simp only [consVisited] at h ⊢
        exact ih s2 h
    · split
      · intro _; rfl
      · split
        · intro h; simp [consVisited] at h
        · split
          · intro h
            rename_i r heq
            rw [advanceStep_inl heq] at h
            simp [consVisited] at h
          · intro h
            rename_i s2 heq
            simp only [consVisited] at h ⊢
            exact ih s2 h

/-- C7: if the callback invoked for a reported collision returns false, the
walk of `CuboidMedium::SampleT_maj` terminates and the function returns the
constant spectrum 1. -/
theorem cuboid_callback_stop_returns_one {Λ : Type} (m : CuboidMedium Λ) (rRender : Ray)
    (raytMax u : ℝ) (rng : ℕ → ℝ) (lambda : Λ) (cb : ℕ → MediumSampleRec → Bool)
    (innerFuel : ℕ)
    (h : (m.SampleT_maj rRender raytMax u rng lambda cb innerFuel).stopped = true) :
    (m.SampleT_maj rRender raytMax u rng lambda cb innerFuel).value = 1 := by
  revert h
  simp only [CuboidMedium.SampleT_maj]
  split
  · intro h; simp at h
  · intro h; exact walkLoop_stopped_value _ _ _ h

/-- The inner sampling loop maintains the invariant that the accumulated
transmittance-to-majorant factor is the product of the ghost factor list. -/
lemma innerLoop_Tacc_prod (C : WalkCtx) (sigma_maj : Spec) (t1 : ℝ) (fuel : ℕ) :
    ∀ (t0 u : ℝ) (ri : ℕ) (Tacc : Spec) (tail : List Spec)
      (evs : List MediumSampleRec), Tacc = tail.prod →
      (innerLoop C sigma_maj t1 fuel t0 u ri Tacc tail evs).T_majAccum =
        (innerLoop C sigma_maj t1 fuel t0 u ri Tacc tail evs).tail.prod := by
  induction fuel with
  | zero => intro t0 u ri Tacc tail evs h; simpa [innerLoop] using h
  | succ n ih =>
    intro t0 u ri Tacc tail evs h
    simp only [innerLoop]
    split
    · simp [List.prod_append, h]
    · split
      · split
        · exact ih _ _ _ _ _ _ (by simp)
        · simpa using h
      · exact ih _ _ _ _ _ _ h

/-- The voxel walk maintains the invariant that, unless stopped by the
callback, the returned value is the product of the transmittance factors
accumulated since the last reported collision. -/
lemma walkLoop_value_tail_prod (C : WalkCtx) (fuel : ℕ) :
    ∀ s : WState, s.T_majAccum = s.tail.prod →
      (walkLoop C fuel s).stopped = false →
      (walkLoop C fuel s).value = (walkLoop C fuel s).tailFactors.prod := by
  induction fuel with
  | zero => intro s h _; simpa [walkLoop] using h
  | succ n ih =>
    intro s h
    simp only [walkLoop]
    split
    · split
      · rename_i r heq
        intro _
        obtain rfl := advanceStep_inl heq
        simp [consVisited, List.prod_append, h]
      · rename_i s2 heq
        intro hst
        simp only [consVisited] at hst ⊢
        have h2 := advanceStep_inr heq
        refine ih s2 ?_ hst
        rw [h2.2.2.1, h2.2.2.2.1]
        simp [List.prod_append, h]
    · split
      · intro hst; simp [consVisited] at hst
      · split
        · intro _
          simp only [consVisited]
          exact innerLoop_Tacc_prod _ _ _ _ _ _ _ _ _ _ h
        · split
          · rename_i r heq
            intro _
            obtain rfl := advanceStep_inl heq
            simp only [consVisited]
            exact innerLoop_Tacc_prod _ _ _ _ _ _ _ _ _ _ h
          · rename_i s2 heq
            intro hst
            simp only [consVisited] at hst ⊢
            have h2 := advanceStep_inr heq
            refine ih s2 ?_ hst
            rw [h2.2.2.1, h2.2.2.2.1]
            exact innerLoop_Tacc_prod _ _ _ _ _ _ _ _ _ _ h

/-- C2 (amended): `CuboidMedium::SampleT_maj` returns the final accumulated
transmittance-to-majorant factor.  That factor is reset to 1 each time a
real collision is reported, so on a walk the callback did not stop, the
returned value is the product of the factors accumulated after the last
reported collision (and 1 only when that product is trivial, not whenever
a collision was reported). -/
theorem cuboid_value_eq_tail_factors_prod {Λ : Type} (m : CuboidMedium Λ)
    (rRender : Ray) (raytMax u : ℝ) (rng : ℕ → ℝ) (lambda : Λ)
    (cb : ℕ → MediumSampleRec → Bool) (innerFuel : ℕ)
    (h : (m.SampleT_maj rRender raytMax u rng lambda cb innerFuel).stopped = false) :
    (m.SampleT_maj rRender raytMax u rng lambda cb innerFuel).value =
      (m.SampleT_maj rRender raytMax u rng lambda cb innerFuel).tailFactors.prod := by
  revert h
  simp only [CuboidMedium.SampleT_maj]
  split
  · intro _; simp
  · intro h
    exact walkLoop_value_tail_prod _ _ _ (by simp [mkWalkCtx]) h

/-- The transmittance factor over a segment is the constant spectrum 1 when
the voxel's majorant density is zero. -/
lemma specExpFactor_of_zero (sigma : Spec) (c dt : ℝ) (h : c = 0) :
    specExpFactor (fun i => sigma i * c) dt = 1 := by
  funext i
  simp [specExpFactor, FastExp, h]

/-- Each unfolding of the voxel walk records the current voxel at the head
of the visited list. -/
lemma walkLoop_succ_visited_head (C : WalkCtx) (n : ℕ) (s : WState) :
    ∃ tl, (walkLoop C (n + 1) s).visited = s.voxel :: tl := by
  simp only [walkLoop]
  split
  · split <;> exact ⟨_, rfl⟩
  · split
    · exact ⟨_, rfl⟩
    · split
      · exact ⟨_, rfl⟩
      · split <;> exact ⟨_, rfl⟩

/-- If every voxel visited by the walk has a zero majorant-grid value, the
walk reports no collision, never stops, and leaves the accumulated
transmittance unchanged. -/
lemma walkLoop_zero_cells (C : WalkCtx) (fuel : ℕ) :
    ∀ s : WState,
      (∀ v ∈ (walkLoop C fuel s).visited, C.grid (offsetOf C.res v) = 0) →
      (walkLoop C fuel s).events = s.events ∧
      (walkLoop C fuel s).value = s.T_majAccum ∧
      (walkLoop C fuel s).stopped = false := by
  induction fuel with
  | zero => intro s _; exact ⟨rfl, rfl, rfl⟩
  | succ n ih =>
    intro s hz
    have h0 : C.grid (offsetOf C.res s.voxel) = 0 := by
      obtain ⟨tl, htl⟩ := walkLoop_succ_visited_head C n s
      exact hz s.voxel (by rw [htl]; exact List.mem_cons_self _ _)
    revert hz
    simp only [walkLoop]
    split
    · split
      · rename_i r heq
        intro _
        obtain rfl := advanceStep_inl heq
        refine ⟨rfl, ?_, rfl⟩
        show s.T_majAccum * specExpFactor _ _ = s.T_majAccum
        rw [specExpFactor_of_zero _ _ _ h0, mul_one]
      · rename_i s2 heq
        intro hz
        have h2 := advanceStep_inr heq
        have hz' : ∀ v ∈ (walkLoop C n s2).visited, C.grid (offsetOf C.res v) = 0 := by
          intro v hv
          exact hz v (by simp only [consVisited, List.mem_cons]; exact Or.inr hv)
        obtain ⟨he, hv, hs⟩ := ih s2 hz'
        refine ⟨?_, ?_, hs⟩
        · rw [show (consVisited s.voxel (walkLoop C n s2)).events =
            (walkLoop C n s2).events from rfl, he, h2.2.1]
        · rw [show (consVisited s.voxel (walkLoop C n s2)).value =
            (walkLoop C n s2).value from rfl, hv, h2.2.2.1]
          show s.T_majAccum * specExpFactor _ _ = s.T_majAccum
          rw [specExpFactor_of_zero _ _ _ h0, mul_one]
    · rename_i hcond
      exact absurd (by rw [h0, mul_zero]) hcond

/-- C5: if every majorant-grid cell the ray's walk traverses holds the value
zero, `CuboidMedium::SampleT_maj` invokes the callback zero times and
returns transmittance exactly 1 (this also covers rays that miss the medium
bounds entirely). -/
theorem cuboid_empty_space_skip {Λ : Type} (m : CuboidMedium Λ) (rRender : Ray)
    (raytMax u : ℝ) (rng : ℕ → ℝ) (lambda : Λ) (cb : ℕ → MediumSampleRec → Bool)
    (innerFuel : ℕ)
    (h : ∀ v ∈ (m.SampleT_maj rRender raytMax u rng lambda cb innerFuel).visited,
      m.provider.maxDensityGrid (offsetOf m.provider.gridResolution v) = 0) :
    (m.SampleT_maj rRender raytMax u rng lambda cb innerFuel).events = [] ∧
    (m.SampleT_maj rRender raytMax u rng lambda cb innerFuel).value = 1 := by
  revert h
  simp only [CuboidMedium.SampleT_maj]
  split
  · intro _; exact ⟨rfl, rfl⟩
  · intro h
    obtain ⟨he, hv, _⟩ := walkLoop_zero_cells _ _ _ h
    exact ⟨he, hv⟩

/-- Per-axis stepping configuration produced by the DDA setup: step `+1`
towards limit `res` or step `-1` towards limit `-1`. -/
def axisOK (C : WalkCtx) : Prop :=
  ∀ i, (C.step i = 1 ∧ C.voxelLimit i = (C.res i : ℤ)) ∨
    (C.step i = -1 ∧ C.voxelLimit i = -1)

/-- Voxel coordinates in range on every axis. -/
def voxOK (C : WalkCtx) (v : Fin 3 → ℤ) : Prop :=
  ∀ i, 0 ≤ v i ∧ v i < (C.res i : ℤ)

/-- Remaining stepping capacity of the walk along one axis. -/
def capOf (C : WalkCtx) (v : Fin 3 → ℤ) (i : Fin 3) : ℤ :=
  if C.step i = 1 then (C.res i : ℤ) - v i else v i + 1

/-- Total remaining stepping capacity of the walk, the termination measure
of the DDA. -/
def measureOf (C : WalkCtx) (v : Fin 3 → ℤ) : ℤ :=
  capOf C v 0 + capOf C v 1 + capOf C v 2

/-- Capacity bounds for an in-range voxel. -/
lemma capOf_bounds {C : WalkCtx} {v : Fin 3 → ℤ} (hA : axisOK C) (hv : voxOK C v)
    (i : Fin 3) : 1 ≤ capOf C v i ∧ capOf C v i ≤ (C.res i : ℤ) := by
  obtain ⟨h0, h1⟩ := hv i
  unfold capOf
  rcases hA i with ⟨hs, -⟩ | ⟨hs, -⟩
  · rw [if_pos hs]; omega
  · rw [if_neg (by rw [hs]; decide)]; omega

/-- A continuing `advanceStep` keeps the voxel in range. -/
lemma advanceStep_voxOK {C : WalkCtx} {sa : Fin 3} {t1 : ℝ} {s s2 : WState}
    (hA : axisOK C) (h : advanceStep C sa t1 s = Sum.inr s2)
    (hv : voxOK C s.voxel) : voxOK C s2.voxel := by
  obtain ⟨hvox, -, -, -, hne⟩ := advanceStep_inr h
  intro i
  rw [hvox]
  by_cases hi : i = sa
  · subst hi
    rw [Function.update_same]
    obtain ⟨h0, h1⟩ := hv i
    rcases hA i with ⟨hs, hl⟩ | ⟨hs, hl⟩ <;> rw [hs, hl] at hne <;> rw [hs] <;> omega
  · rw [Function.update_noteq hi]
    exact hv i

/-- A continuing `advanceStep` decreases the walk measure by exactly one. -/
lemma advanceStep_measure {C : WalkCtx} {sa : Fin 3} {t1 : ℝ} {s s2 : WState}
    (hA : axisOK C) (h : advanceStep C sa t1 s = Sum.inr s2) :
    measureOf C s2.voxel = measureOf C s.voxel - 1 := by
  obtain ⟨hvox, -, -, -, -⟩ := advanceStep_inr h
  have hcap : ∀ i, capOf C s2.voxel i =
      if i = sa then capOf C s.voxel i - 1 else capOf C s.voxel i := by
    intro i
    by_cases hi : i = sa
    · subst hi
      rw [if_pos rfl]
      rcases hA i with ⟨hs, -⟩ | ⟨hs, -⟩ <;>
        simp only [capOf, hvox, Function.update_same, hs] <;> norm_num <;> ring
    · rw [if_neg hi]
      unfold capOf
      rw [hvox, Function.update_noteq hi]
  unfold measureOf
  rw [hcap 0, hcap 1, hcap 2]
  fin_cases sa <;> simp <;> ring

/-- Every voxel the walk reads from the majorant grid is in range, given an
in-range entry voxel and a well-formed stepping configuration. -/
lemma walkLoop_visited_inbounds (C : WalkCtx) (hA : axisOK C) (fuel : ℕ) :
    ∀ s : WState, voxOK C s.voxel →
      ∀ v ∈ (walkLoop C fuel s).visited, voxOK C v := by
  induction fuel with
  | zero => intro s _ v hv; simp [walkLoop] at hv
  | succ n ih =>
    intro s hs v
    simp only [walkLoop]
    split
    · split
      · rename_i r heq
        obtain rfl := advanceStep_inl heq
        intro hv
        simp only [consVisited, List.mem_cons, List.not_mem_nil, or_false] at hv
        exact hv ▸ hs
      · rename_i s2 heq
        intro hv
        simp only [consVisited, List.mem_cons] at hv
        rcases hv with rfl | hv
        · exact hs
        · exact ih s2 (advanceStep_voxOK hA heq hs) v hv
    · split
      · intro hv
        simp only [consVisited, List.mem_cons, List.not_mem_nil, or_false] at hv
        exact hv ▸ hs
      · split
        · intro hv
          simp only [consVisited, List.mem_cons, List.not_mem_nil, or_false] at hv
          exact hv ▸ hs
        · split
          · rename_i r heq
            obtain rfl := advanceStep_inl heq
            intro hv
            simp only [consVisited, List.mem_cons, List.not_mem_nil, or_false] at hv
            exact hv ▸ hs
          · rename_i s2 heq
            intro hv
            simp only [consVisited, List.mem_cons] at hv
            rcases hv with rfl | hv
            · exact hs
            · exact ih s2 (advanceStep_voxOK hA heq hs) v hv

/-- The number of voxels the walk visits is at most the walk measure of the
entry state. -/
lemma walkLoop_length_le (C : WalkCtx) (hA : axisOK C) (fuel : ℕ) :
    ∀ s : WState, voxOK C s.voxel →
      ((walkLoop C fuel s).visited.length : ℤ) ≤ measureOf C s.voxel := by
  induction fuel with
  | zero =>
    intro s hs
    have h0 := capOf_bounds hA hs 0
    have h1 := capOf_bounds hA hs 1
    have h2 := capOf_bounds hA hs 2
    simp only [walkLoop, List.length_nil]
    unfold measureOf
    omega
  | succ n ih =>
    intro s hs
    have h0 := capOf_bounds hA hs 0
    have h1 := capOf_bounds hA hs 1
    have h2 := capOf_bounds hA hs 2
    have hm : (3 : ℤ) ≤ measureOf C s.voxel := by unfold measureOf; omega
    simp only [walkLoop]
    split
    · split
      · rename_i r heq
        obtain rfl := advanceStep_inl heq
        simp only [consVisited, List.length_cons, List.length_nil]
        omega
      · rename_i s2 heq
        have hIH := ih s2 (advanceStep_voxOK hA heq hs)
        have hme0 := advanceStep_measure hA heq
        have hme : measureOf C s2.voxel = measureOf C s.voxel - 1 := hme0
        simp only [consVisited, List.length_cons]
        push_cast
        omega
    · split
      · simp only [consVisited, List.length_cons, List.length_nil]
        omega
      · split
        · simp only [consVisited, List.length_cons, List.length_nil]
          omega
        · split
          · rename_i r heq
            obtain rfl := advanceStep_inl heq
            simp only [consVisited, List.length_cons, List.length_nil]
            omega
          · rename_i s2 heq
            have hIH := ih s2 (advanceStep_voxOK hA heq hs)
            have hme0 := advanceStep_measure hA heq
            have hme : measureOf C s2.voxel = measureOf C s.voxel - 1 := hme0
            simp only [consVisited, List.length_cons]
            push_cast
            omega

/-- The walk never exhausts its outer fuel when the fuel exceeds the walk
measure of the entry state. -/
lemma walkLoop_no_outer_abort (C : WalkCtx) (hA : axisOK C) (fuel : ℕ) :
    ∀ s : WState, voxOK C s.voxel → measureOf C s.voxel < fuel →
      (walkLoop C fuel s).outerAborted = false := by
  induction fuel with
  | zero =>
    intro s hs hf
    have h0 := capOf_bounds hA hs 0
    have h1 := capOf_bounds hA hs 1
    have h2 := capOf_bounds hA hs 2
    unfold measureOf at hf
    omega
  | succ n ih =>
    intro s hs hf
    simp only [walkLoop]
    split
    · split
      · rename_i r heq
        obtain rfl := advanceStep_inl heq
        rfl
      · rename_i s2 heq
        have hme0 := advanceStep_measure hA heq
        have hme : measureOf C s2.voxel = measureOf C s.voxel - 1 := hme0
        simp only [consVisited]
        refine ih s2 (advanceStep_voxOK hA heq hs) ?_
        push_cast at hf ⊢
        omega
    · split
      · rfl
      · split
        · rfl
        · split
          · rename_i r heq
            obtain rfl := advanceStep_inl heq
            rfl
          · rename_i s2 heq
            have hme0 := advanceStep_measure hA heq
            have hme : measureOf C s2.voxel = measureOf C s.voxel - 1 := hme0
            simp only [consVisited]
            refine ih s2 (advanceStep_voxOK hA heq hs) ?_
            push_cast at hf ⊢
            omega

/-- Truncating the clamped entry coordinate (float-to-int conversion of the
source, which truncates the non-negative clamped value) lands in
`[0, r - 1]` whenever the resolution `r` is at least 1. -/
lemma clamp_floor_mem (x : ℝ) (r : ℕ) (hr : 1 ≤ r) :
    0 ≤ ⌊Clamp x 0 ((r : ℝ) - 1)⌋ ∧ ⌊Clamp x 0 ((r : ℝ) - 1)⌋ < (r : ℤ) := by
  have h1 : (1 : ℝ) ≤ (r : ℝ) := by exact_mod_cast hr
  unfold Clamp
  split_ifs with ha hb
  · simp only [Int.floor_zero]
    constructor
    · exact le_refl 0
    · exact_mod_cast hr
  · rw [show ((r : ℝ) - 1) = (((r : ℤ) - 1 : ℤ) : ℝ) by push_cast; ring, Int.floor_intCast]
    omega
  · push_neg at ha hb
    constructor
    · exact Int.le_floor.mpr (by exact_mod_cast ha)
    · exact Int.floor_lt.mpr (by push_cast; linarith)

/-- The stepping configuration built by `mkWalkCtx` is well formed. -/
lemma mkWalkCtx_axisOK {Λ : Type} (m : CuboidMedium Λ) (rayO d : V3) (tMin tMax : ℝ)
    (rng : ℕ → ℝ) (lambda : Λ) (cb : ℕ → MediumSampleRec → Bool) (innerFuel : ℕ)
    (u : ℝ) :
    axisOK (mkWalkCtx m rayO d tMin tMax rng lambda cb innerFuel u).1 := by
  intro i
  by_cases hd : 0 ≤ d i / m.provider.Bounds.Diagonal i
  · left
    constructor <;> simp [mkWalkCtx, if_pos hd]
  · right
    constructor <;> simp [mkWalkCtx, if_neg hd]

/-- The entry voxel built by `mkWalkCtx` is in range when every axis of the
grid resolution is at least 1. -/
lemma mkWalkCtx_voxOK {Λ : Type} (m : CuboidMedium Λ) (rayO d : V3) (tMin tMax : ℝ)
    (rng : ℕ → ℝ) (lambda : Λ) (cb : ℕ → MediumSampleRec → Bool) (innerFuel : ℕ)
    (u : ℝ) (hres : ∀ i, 1 ≤ m.provider.gridResolution i) :
    voxOK (mkWalkCtx m rayO d tMin tMax rng lambda cb innerFuel u).1
      (mkWalkCtx m rayO d tMin tMax rng lambda cb innerFuel u).2.voxel := by
  intro i
  exact clamp_floor_mem _ _ (hres i)

/-- Coordinates in range give a flattened offset within the majorant grid's
extent. -/
lemma offsetOf_bounds (res : Fin 3 → ℕ) (v : Fin 3 → ℤ)
    (h : ∀ i, 0 ≤ v i ∧ v i < (res i : ℤ)) :
    0 ≤ offsetOf res v ∧
    offsetOf res v < (res 0 : ℤ) * (res 1 : ℤ) * (res 2 : ℤ) := by
  obtain ⟨h00, h01⟩ := h 0
  obtain ⟨h10, h11⟩ := h 1
  obtain ⟨h20, h21⟩ := h 2
  have hr0 : (0 : ℤ) ≤ (res 0 : ℤ) := Int.ofNat_nonneg _
  have hr1 : (0 : ℤ) ≤ (res 1 : ℤ) := Int.ofNat_nonneg _
  have hr2 : (0 : ℤ) ≤ (res 2 : ℤ) := Int.ofNat_nonneg _
  have hin : v 1 + (res 1 : ℤ) * v 2 ≤ (res 1 : ℤ) * (res 2 : ℤ) - 1 := by
    have := mul_le_mul_of_nonneg_left (show v 2 ≤ (res 2 : ℤ) - 1 by omega) hr1
    nlinarith
  have hin0 : 0 ≤ v 1 + (res 1 : ℤ) * v 2 := by positivity
  unfold offsetOf
  constructor
  · positivity
  · have := mul_le_mul_of_nonneg_left hin hr0
    nlinarith

/-- C10: every read of the majorant grid performed by the walk of
`CuboidMedium::SampleT_maj` is in bounds: each visited voxel has every
coordinate in `[0, res - 1]` and a flattened offset in
`[0, res.x * res.y * res.z)`, provided the grid resolution is at least 1 on
every axis. -/
theorem cuboid_grid_reads_in_bounds {Λ : Type} (m : CuboidMedium Λ) (rRender : Ray)
    (raytMax u : ℝ) (rng : ℕ → ℝ) (lambda : Λ) (cb : ℕ → MediumSampleRec → Bool)
    (innerFuel : ℕ) (hres : ∀ i, 1 ≤ m.provider.gridResolution i) :
    ∀ v ∈ (m.SampleT_maj rRender raytMax u rng lambda cb innerFuel).visited,
      (∀ i, 0 ≤ v i ∧ v i < (m.provider.gridResolution i : ℤ)) ∧
      0 ≤ offsetOf m.provider.gridResolution v ∧
      offsetOf m.provider.gridResolution v <
        (m.provider.gridResolution 0 : ℤ) * (m.provider.gridResolution 1 : ℤ) *
          (m.provider.gridResolution 2 : ℤ) := by
  intro v hv
  revert hv
  simp only [CuboidMedium.SampleT_maj]
  split
  · intro hv; simp at hv
  · intro hv
    have hin := walkLoop_visited_inbounds _ (mkWalkCtx_axisOK _ _ _ _ _ _ _ _ _ _) _ _
      (mkWalkCtx_voxOK _ _ _ _ _ _ _ _ _ _ hres) v hv
    exact ⟨hin, offsetOf_bounds _ _ hin⟩

/-- C6: for any ray, the voxel walk of `CuboidMedium::SampleT_maj`
terminates without exhausting its outer fuel and visits at most
`res.x + res.y + res.z` voxels, provided the grid resolution is at least 1
on every axis (rays missing the bounds visit no voxel at all). -/
theorem cuboid_dda_terminates {Λ : Type} (m : CuboidMedium Λ) (rRender : Ray)
    (raytMax u : ℝ) (rng : ℕ → ℝ) (lambda : Λ) (cb : ℕ → MediumSampleRec → Bool)
    (innerFuel : ℕ) (hres : ∀ i, 1 ≤ m.provider.gridResolution i) :
    (m.SampleT_maj rRender raytMax u rng lambda cb innerFuel).outerAborted = false ∧
    (m.SampleT_maj rRender raytMax u rng lambda cb innerFuel).visited.length ≤
      m.provider.gridResolution 0 + m.provider.gridResolution 1 +
        m.provider.gridResolution 2 := by
  simp only [CuboidMedium.SampleT_maj]
  split
  · exact ⟨rfl, by simp⟩
  · rename_i tr tMin tMax heq
    have hA := mkWalkCtx_axisOK m (m.invPoint rRender.o) (normalize3 (m.invDir rRender.d))
      tMin tMax rng lambda cb innerFuel u
    have hv := mkWalkCtx_voxOK m (m.invPoint rRender.o) (normalize3 (m.invDir rRender.d))
      tMin tMax rng lambda cb innerFuel u hres
    have hcap0 := capOf_bounds hA hv 0
    have hcap1 := capOf_bounds hA hv 1
    have hcap2 := capOf_bounds hA hv 2
    have hmeas : measureOf (mkWalkCtx m (m.invPoint rRender.o)
        (normalize3 (m.invDir rRender.d)) tMin tMax rng lambda cb innerFuel u).1
        (mkWalkCtx m (m.invPoint rRender.o) (normalize3 (m.invDir rRender.d)) tMin tMax
          rng lambda cb innerFuel u).2.voxel ≤
        (m.provider.gridResolution 0 : ℤ) + (m.provider.gridResolution 1 : ℤ) +
          (m.provider.gridResolution 2 : ℤ) := by
      unfold measureOf
      have e0 : ((mkWalkCtx m (m.invPoint rRender.o) (normalize3 (m.invDir rRender.d))
          tMin tMax rng lambda cb innerFuel u).1.res 0 : ℤ) =
          (m.provider.gridResolution 0 : ℤ) := rfl
      have e1 : ((mkWalkCtx m (m.invPoint rRender.o) (normalize3 (m.invDir rRender.d))
          tMin tMax rng lambda cb innerFuel u).1.res 1 : ℤ) =
          (m.provider.gridResolution 1 : ℤ) := rfl
      have e2 : ((mkWalkCtx m (m.invPoint rRender.o) (normalize3 (m.invDir rRender.d))
          tMin tMax rng lambda cb innerFuel u).1.res 2 : ℤ) =
          (m.provider.gridResolution 2 : ℤ) := rfl
      rw [e0] at hcap0
      rw [e1] at hcap1
      rw [e2] at hcap2
      omega
    constructor
    · refine walkLoop_no_outer_abort _ hA _ _ hv ?_
      have hfuel : ((mkWalkCtx m (m.invPoint rRender.o)
          (normalize3 (m.invDir rRender.d)) tMin tMax rng lambda cb innerFuel u).1.res 0 +
          (mkWalkCtx m (m.invPoint rRender.o) (normalize3 (m.invDir rRender.d)) tMin tMax
            rng lambda cb innerFuel u).1.res 1 +
          (mkWalkCtx m (m.invPoint rRender.o) (normalize3 (m.invDir rRender.d)) tMin tMax
            rng lambda cb innerFuel u).1.res 2 + 1 : ℕ) =
          m.provider.gridResolution 0 + m.provider.gridResolution 1 +
            m.provider.gridResolution 2 + 1 := rfl
      rw [hfuel]
      push_cast
      omega
    · have hlen := walkLoop_length_le _ hA
        ((mkWalkCtx m (m.invPoint rRender.o) (normalize3 (m.invDir rRender.d)) tMin tMax
          rng lambda cb innerFuel u).1.res 0 +
         (mkWalkCtx m (m.invPoint rRender.o) (normalize3 (m.invDir rRender.d)) tMin tMax
          rng lambda cb innerFuel u).1.res 1 +
         (mkWalkCtx m (m.invPoint rRender.o) (normalize3 (m.invDir rRender.d)) tMin tMax
          rng lambda cb innerFuel u).1.res 2 + 1) _ hv
      omega

/-! ### A concrete cuboid medium run

A unit-cube medium with a single-cell majorant grid holding the value 1,
`sigma_a = 0`, `sigma_s = 1` at every wavelength, an identity
render-from-medium transform, and an axis-aligned ray entering the cube at
`t = 1` and leaving at `t = 2`.  The uniform inputs are chosen so that the
first exponential draw lands at `t = 3/2` (a reported collision) and the
second at `t = 5/2` (outside the segment). -/

/-- Unit cube bounds for the concrete run. -/
def cexBounds : Bounds3 := ⟨fun _ => 0, fun _ => 1⟩

/-- Provider of the concrete run: unit density everywhere, no emission,
single-cell majorant grid with value 1. -/
def cexProvider : CuboidProvider Unit :=
  ⟨cexBounds, fun _ _ => ⟨1, 1⟩, fun _ _ => 0, fun _ => 1, fun _ => 1⟩

/-- Medium of the concrete run. -/
def cexMedium : CuboidMedium Unit :=
  ⟨cexProvider, fun _ _ => 0, fun _ _ => 1, 1, id, id, id⟩

/-- All-zero-grid variant of the concrete medium (for the empty-space-skip
witness). -/
def zeroMedium : CuboidMedium Unit :=
  ⟨⟨cexBounds, fun _ _ => ⟨1, 1⟩, fun _ _ => 0, fun _ => 0, fun _ => 1⟩,
   fun _ _ => 0, fun _ _ => 1, 1, id, id, id⟩

/-- Ray of the concrete run. -/
def cexRay : Ray := ⟨![-1, 1/2, 1/2], ![1, 0, 0], 0⟩

/-- First uniform sample of the concrete run: the draw at rate 1 is `1/2`. -/
def cexU : ℝ := 1 - Real.exp (-(1/2))

/-- RNG stream of the concrete run: every refreshed draw at rate 1 is `1`. -/
def cexRng : ℕ → ℝ := fun _ => 1 - Real.exp (-1)

/-- Walk context the setup of the concrete run produces. -/
def cexCtx (cb : ℕ → MediumSampleRec → Bool) (innerFuel : ℕ) : WalkCtx :=
  ⟨2, fun _ => 1, fun _ => 0, fun _ => 1, fun _ => 1, fun _ => 1, fun _ => 1,
   fun _ => 1, ![1, 0, 0], ![1, 0, 0], ![-1, 1/2, 1/2], ![1, 0, 0], cexRng, cb,
   innerFuel, fun _ => ⟨1, 1⟩, fun _ => 0, id⟩

/-- Walk state the setup of the concrete run produces. -/
def cexState : WState := ⟨fun _ => 0, ![2, 1, 1], 1, cexU, 0, 1, [], []⟩

/-- Length of the concrete ray direction. -/
lemma cex_length : length3 ![1, 0, 0] = 1 := by
  have : dot3 ![(1 : ℝ), 0, 0] ![1, 0, 0] = 1 := by
    simp [dot3]
  rw [length3, this, Real.sqrt_one]

/-- The concrete ray direction is already normalized. -/
lemma cex_normalize : normalize3 ![1, 0, 0] = ![1, 0, 0] := by
  funext i
  rw [normalize3, cex_length, div_one]

/-- Slab test of the concrete run: the ray spans `[1, 2]` inside the cube. -/
lemma cex_intersect : cexBounds.IntersectP ![-1, 1/2, 1/2] ![1, 0, 0] 3 = some (1, 2) := by
  have h0 : slabAxis cexBounds ![-1, 1/2, 1/2] ![1, 0, 0] 0 (0, 3) = some (1, 2) := by
    rw [slabAxis]
    rw [if_neg (by norm_num : ¬(![(1 : ℝ), 0, 0] 0 = 0))]
    simp only [cexBounds]
    norm_num
  have h1 : slabAxis cexBounds ![-1, 1/2, 1/2] ![1, 0, 0] 1 (1, 2) = some (1, 2) := by
    rw [slabAxis]
    rw [if_pos (by norm_num : (![(1 : ℝ), 0, 0] 1 = 0))]
    rw [if_neg]
    simp only [cexBounds]
    norm_num
  have h2 : slabAxis cexBounds ![-1, 1/2, 1/2] ![1, 0, 0] 2 (1, 2) = some (1, 2) := by
    rw [slabAxis]
    rw [if_pos (by norm_num : (![(1 : ℝ), 0, 0] 2 = 0))]
    rw [if_neg]
    simp only [cexBounds]
    norm_num
  rw [Bounds3.IntersectP, h0]
  simp only [Option.some_bind]
  rw [h1]
  simp only [Option.some_bind]
  exact h2

/-- The DDA setup of the concrete run produces exactly `cexCtx` and
`cexState`. -/
lemma cex_mkWalkCtx (cb : ℕ → MediumSampleRec → Bool) (innerFuel : ℕ) :
    mkWalkCtx cexMedium ![-1, 1/2, 1/2] ![1, 0, 0] 1 2 cexRng () cb innerFuel cexU =
      (cexCtx cb innerFuel, cexState) := by
  simp only [mkWalkCtx, cexCtx, cexState, cexMedium, cexProvider, cexBounds,
    Bounds3.Offset, Bounds3.Diagonal, Prod.mk.injEq, WalkCtx.mk.injEq, WState.mk.injEq]
  and_intros <;>
    first
      | trivial
      | (funext i; fin_cases i <;> norm_num [Clamp])
      | (funext i; norm_num [Clamp])

/-- A `SampleT_maj` call of the concrete run reduces to the walk on
`cexCtx` and `cexState` with outer fuel 4. -/
lemma cex_run (cb : ℕ → MediumSampleRec → Bool) (innerFuel : ℕ) :
    cexMedium.SampleT_maj cexRay 3 cexU cexRng () cb innerFuel =
      walkLoop (cexCtx cb innerFuel) 4 cexState := by
  simp only [CuboidMedium.SampleT_maj,
    show cexMedium.invPoint = id from rfl, show cexMedium.invDir = id from rfl,
    show cexRay.o = ![-1, 1/2, 1/2] from rfl, show cexRay.d = ![1, 0, 0] from rfl,
    id_eq, cex_length, cex_normalize, mul_one,
    show cexMedium.provider.Bounds = cexBounds from rfl, cex_intersect]
  rw [cex_mkWalkCtx]
  norm_num [cexCtx]

/-- Evaluation of the concrete run with a callback that always continues:
one collision is reported at `t = 3/2`, the walk completes, and the
returned transmittance is `exp(-1/2)` in every component. -/
lemma cex_walk_true_eval :
    (cexMedium.SampleT_maj cexRay 3 cexU cexRng () (fun _ _ => true) 2).events.length
        = 1 ∧
    (cexMedium.SampleT_maj cexRay 3 cexU cexRng () (fun _ _ => true) 2).stopped
        = false ∧
    (cexMedium.SampleT_maj cexRay 3 cexU cexRng () (fun _ _ => true) 2).innerAborted
        = false ∧
    (cexMedium.SampleT_maj cexRay 3 cexU cexRng () (fun _ _ => true) 2).outerAborted
        = false ∧
    (cexMedium.SampleT_maj cexRay 3 cexU cexRng () (fun _ _ => true) 2).value 0
        = Real.exp (-(1/2)) := by
  have hu : (1 : ℝ) - cexU = Real.exp (-(1/2)) := by unfold cexU; ring
  have hr : ∀ n, (1 : ℝ) - cexRng n = Real.exp (-1) := fun n => by unfold cexRng; ring
  rw [cex_run]
  norm_num [walkLoop, innerLoop, advanceStep, consVisited, stepAxisOf, ncLT, cmpToAxis,
    offsetOf, cexCtx, cexState, SampleExponential, specExpFactor, FastExp, hu, hr,
    Real.log_exp]

/-- Evaluation of the concrete run with a callback that always stops: the
collision at `t = 3/2` is reported once and the walk stops. -/
lemma cex_walk_false_eval :
    (cexMedium.SampleT_maj cexRay 3 cexU cexRng () (fun _ _ => false) 2).stopped
        = true := by
  have hu : (1 : ℝ) - cexU = Real.exp (-(1/2)) := by unfold cexU; ring
  have hr : ∀ n, (1 : ℝ) - cexRng n = Real.exp (-1) := fun n => by unfold cexRng; ring
  rw [cex_run]
  norm_num [walkLoop, innerLoop, advanceStep, consVisited, stepAxisOf, ncLT, cmpToAxis,
    offsetOf, cexCtx, cexState, SampleExponential, specExpFactor, FastExp, hu, hr,
    Real.log_exp]

/-- C2 (counterexample): in the concrete run, exactly one real collision is
reported to the callback, the callback always continues, the walk runs to
completion (no stop, no fuel exhaustion), and yet the returned value is
`exp(-1/2) ≠ 1` — refuting the claim that the returned value equals 1
whenever at least one real collision was reported and the walk completes. -/
theorem cuboid_collision_transmittance_not_one_cex :
    (cexMedium.SampleT_maj cexRay 3 cexU cexRng () (fun _ _ => true) 2).events.length
        = 1 ∧
    (cexMedium.SampleT_maj cexRay 3 cexU cexRng () (fun _ _ => true) 2).stopped
        = false ∧
    (cexMedium.SampleT_maj cexRay 3 cexU cexRng () (fun _ _ => true) 2).innerAborted
        = false ∧
    (cexMedium.SampleT_maj cexRay 3 cexU cexRng () (fun _ _ => true) 2).outerAborted
        = false ∧
    (cexMedium.SampleT_maj cexRay 3 cexU cexRng () (fun _ _ => true) 2).value 0
        ≠ 1 := by
  obtain ⟨h1, h2, h3, h4, h5⟩ := cex_walk_true_eval
  refine ⟨h1, h2, h3, h4, ?_⟩
  rw [h5]
  intro h
  have h0 := Real.exp_injective (h.trans Real.exp_zero.symm)
  norm_num at h0

/-- Witness for `cuboid_value_eq_tail_factors_prod` at the concrete run. -/
theorem cuboid_value_eq_tail_factors_prod_witness :
    (cexMedium.SampleT_maj cexRay 3 cexU cexRng () (fun _ _ => true) 2).stopped
        = false ∧
    (cexMedium.SampleT_maj cexRay 3 cexU cexRng () (fun _ _ => true) 2).value =
      (cexMedium.SampleT_maj cexRay 3 cexU cexRng ()
        (fun _ _ => true) 2).tailFactors.prod :=
  ⟨cex_walk_true_eval.2.1,
   cuboid_value_eq_tail_factors_prod cexMedium cexRay 3 cexU cexRng () (fun _ _ => true)
     2 cex_walk_true_eval.2.1⟩

/-- Witness for `cuboid_callback_stop_returns_one` at the concrete run with
a callback that stops at the reported collision. -/
theorem cuboid_callback_stop_returns_one_witness :
    (cexMedium.SampleT_maj cexRay 3 cexU cexRng () (fun _ _ => false) 2).stopped
        = true ∧
    (cexMedium.SampleT_maj cexRay 3 cexU cexRng () (fun _ _ => false) 2).value = 1 :=
  ⟨cex_walk_false_eval,
   cuboid_callback_stop_returns_one cexMedium cexRay 3 cexU cexRng () (fun _ _ => false)
     2 cex_walk_false_eval⟩

/-- Witness for `cuboid_empty_space_skip` on the all-zero-grid medium. -/
theorem cuboid_empty_space_skip_witness :
    (∀ v ∈ (zeroMedium.SampleT_maj cexRay 3 cexU cexRng ()
        (fun _ _ => true) 2).visited,
      zeroMedium.provider.maxDensityGrid
        (offsetOf zeroMedium.provider.gridResolution v) = 0) ∧
    ((zeroMedium.SampleT_maj cexRay 3 cexU cexRng () (fun _ _ => true) 2).events = [] ∧
     (zeroMedium.SampleT_maj cexRay 3 cexU cexRng () (fun _ _ => true) 2).value = 1) :=
  ⟨fun _ _ => rfl,
   cuboid_empty_space_skip zeroMedium cexRay 3 cexU cexRng () (fun _ _ => true) 2
     (fun _ _ => rfl)⟩

/-- Witness for `cuboid_dda_terminates` at the concrete medium. -/
theorem cuboid_dda_terminates_witness :
    (∀ i, 1 ≤ cexMedium.provider.gridResolution i) ∧
    ((cexMedium.SampleT_maj cexRay 3 cexU cexRng ()
        (fun _ _ => true) 2).outerAborted = false ∧
     (cexMedium.SampleT_maj cexRay 3 cexU cexRng ()
        (fun _ _ => true) 2).visited.length ≤
       cexMedium.provider.gridResolution 0 + cexMedium.provider.gridResolution 1 +
         cexMedium.provider.gridResolution 2) :=
  ⟨fun _ => le_refl 1,
   cuboid_dda_terminates cexMedium cexRay 3 cexU cexRng () (fun _ _ => true) 2
     (fun _ => le_refl 1)⟩

/-- Witness for `cuboid_grid_reads_in_bounds` at the concrete medium. -/
theorem cuboid_grid_reads_in_bounds_witness :
    (∀ i, 1 ≤ cexMedium.provider.gridResolution i) ∧
    (∀ v ∈ (cexMedium.SampleT_maj cexRay 3 cexU cexRng ()
        (fun _ _ => true) 2).visited,
      (∀ i, 0 ≤ v i ∧ v i < (cexMedium.provider.gridResolution i : ℤ)) ∧
      0 ≤ offsetOf cexMedium.provider.gridResolution v ∧
      offsetOf cexMedium.provider.gridResolution v <
        (cexMedium.provider.gridResolution 0 : ℤ) *
          (cexMedium.provider.gridResolution 1 : ℤ) *
          (cexMedium.provider.gridResolution 2 : ℤ)) :=
  ⟨fun _ => le_refl 1,
   cuboid_grid_reads_in_bounds cexMedium cexRay 3 cexU cexRng () (fun _ _ => true) 2
     (fun _ => le_refl 1)⟩

/-! ### The remaining density providers: regular voxel grid and sparse grid

`UniformGridMediumProvider` and `NanoVDBMediumProvider` are embedded from
the source.  Their backing lattices (`SampledGrid<Float>`,
`SampledGrid<RGBUnboundedSpectrum>`, `RGBUnboundedSpectrum` and the nanovdb
grid with its accessor and trilinear sampler) live in pbrt utility headers
outside the given source and are modelled from the spec as opaque
interfaces; the conservativeness their documentation promises enters the
majorant-soundness theorem as explicit hypotheses, while everything the
given source contributes — the offset-in-x-then-y-then-z layout of the
built grid, the per-cell bounds in offset space, the
`sigma_a + sigma_s` max summation, the world-space cell `Lerp`, the
one-voxel filter slop with truncating float-to-int conversion, the clamp to
the sparse grid's index bounding box and the zero initialization of the
scanned maximum — is proved. -/

/-- Modelled from the spec: the interface of `SampledGrid<Float>` used by the
provider, a point lookup of the filtered lattice and a maximum over a
sub-box. -/
structure SampledGridF where
  Lookup : V3 → ℝ
  MaxValue : Bounds3 → ℝ

/-- Modelled from the spec: the interface of `RGBUnboundedSpectrum` used by
the provider, per-wavelength sampling and the maximum over wavelengths. -/
structure RGBUnboundedSpectrum (Λ : Type) where
  Sample : Λ → Spec
  MaxValue : ℝ

/-- Modelled from the spec: the interface of
`SampledGrid<RGBUnboundedSpectrum>` used by the provider; lookup takes the
per-spectrum conversion functional and the maximum takes the per-spectrum
max functional, exactly as the two call sites of the source pass them. -/
structure SampledGridRGB (Λ : Type) where
  Lookup : V3 → (RGBUnboundedSpectrum Λ → Spec) → Spec
  MaxValue : Bounds3 → (RGBUnboundedSpectrum Λ → ℝ) → ℝ

/-- Contents of a `UniformGridMediumProvider`: the source stores three
optionals and dispatches `if (densityGrid) ... else if (sigma_aGrid) ...
else ...` (with `sigma_sGrid` accompanying `sigma_aGrid` and `rgbGrid` the
final case), so exactly one of the three variants is active. -/
inductive UniformGridContents (Λ : Type)
  | density (g : SampledGridF)
  | sigmaPair (ag sg : SampledGridF)
  | rgb (g : SampledGridRGB Λ)

/-- Regular voxel grid provider, modelling `UniformGridMediumProvider`
(emission members `Le_spec`/`LeScale` omitted: they do not enter `Density`
or `GetMaxDensityGrid`). -/
structure UniformGridMediumProvider (Λ : Type) where
  bounds : Bounds3
  contents : UniformGridContents Λ

/-- Density of the regular voxel grid provider, modelling
`UniformGridMediumProvider::Density`: offset the point into `[0,1]^3` and
look up the active lattice (`MediumDensity(Float)` and
`SampledSpectrum(Float)` are constant spectra). -/
def UniformGridMediumProvider.Density {Λ : Type} (up : UniformGridMediumProvider Λ)
    (p : V3) (lambda : Λ) : MediumDensity :=
  let pp := up.bounds.Offset p
  match up.contents with
  | .density g => ⟨fun _ => g.Lookup pp, fun _ => g.Lookup pp⟩
  | .sigmaPair ag sg => ⟨fun _ => ag.Lookup pp, fun _ => sg.Lookup pp⟩
  | .rgb g => ⟨g.Lookup pp (fun s => s.Sample lambda), g.Lookup pp (fun s => s.Sample lambda)⟩

/-- Offset-space bounds of one majorant cell of the regular grid builder,
`Bounds3f(Point3f(x/res, y/res, z/res), Point3f((x+1)/res, ...))` with
`res = 16` as in the source. -/
def uniformCellBounds (x y z : ℝ) : Bounds3 :=
  ⟨![x / 16, y / 16, z / 16], ![(x + 1) / 16, (y + 1) / 16, (z + 1) / 16]⟩

/-- Value the regular grid builder stores for one cell: the lattice maximum
over the cell bounds, `MaxValue_a + MaxValue_s` for the two-lattice
variant, and the per-spectrum-max functional for the rgb variant, as in the
source. -/
def uniformCellMax {Λ : Type} (c : UniformGridContents Λ) (x y z : ℝ) : ℝ :=
  match c with
  | .density g => g.MaxValue (uniformCellBounds x y z)
  | .sigmaPair ag sg =>
    ag.MaxValue (uniformCellBounds x y z) + sg.MaxValue (uniformCellBounds x y z)
  | .rgb g => g.MaxValue (uniformCellBounds x y z) (fun s => s.MaxValue)

/-- Majorant grid of the regular voxel grid provider, modelling
`UniformGridMediumProvider::GetMaxDensityGrid`: resolution `16^3`, and the
source writes the cells with `offset++` inside x-inner, y-middle, z-outer
loops, so the finished vector's entry at flat offset `o` is the cell
`(o mod 16, (o / 16) mod 16, o / 256)`; the embedding represents the
finished vector as that function of the offset. -/
def UniformGridMediumProvider.GetMaxDensityGrid {Λ : Type}
    (up : UniformGridMediumProvider Λ) : (ℤ → ℝ) × (Fin 3 → ℕ) :=
  (fun off => uniformCellMax up.contents ((off % 16 : ℤ) : ℝ) ((off / 16 % 16 : ℤ) : ℝ)
    ((off / 256 : ℤ) : ℝ), fun _ => 16)

/-- Modelled from the spec: `Bounds3f::Lerp(t)`, the componentwise affine
interpolation `(1 - t) * pMin + t * pMax`. -/
def Bounds3.Lerp (b : Bounds3) (t : V3) : V3 :=
  fun i => (1 - t i) * b.pMin i + t i * b.pMax i

/-- Modelled from the spec: C++ float-to-int conversion, truncation toward
zero (`int(...)` in the source's filter-slop computation). -/
def truncZ (x : ℝ) : ℤ := if x < 0 then ⌈x⌉ else ⌊x⌋

/-- Integer interval `[lo, hi]` as a list (empty when `hi < lo`), the index
set of one axis of the source's inclusive scan loops. -/
def intRange (lo hi : ℤ) : List ℤ :=
  (List.range (hi + 1 - lo).toNat).map (fun (k : ℕ) => lo + (k : ℤ))

/-- Maximum of a voxel-value function over an inclusive integer box,
starting from 0, modelling the source's triple scan loop with
`float maxValue = 0`. -/
def boxMax (g : (Fin 3 → ℤ) → ℝ) (lo hi : Fin 3 → ℤ) : ℝ :=
  (((intRange (lo 2) (hi 2)).flatMap fun nz =>
    (intRange (lo 1) (hi 1)).flatMap fun ny =>
      (intRange (lo 0) (hi 0)).map fun nx => g ![nx, ny, nz])).foldl max 0

/-- Modelled from the spec: the interface of the sparse (nanovdb) density
grid used by the provider — the world-to-index map `worldToIndexF`, the
voxel accessor `getValue`, the integer index bounding box, and the order-1
(`SampleFromVoxels`) point sampler. -/
structure NanoVDBGrid where
  worldToIndex : V3 → V3
  getValue : (Fin 3 → ℤ) → ℝ
  bboxMin : Fin 3 → ℤ
  bboxMax : Fin 3 → ℤ
  Sample : V3 → ℝ

/-- Sparse voxel grid provider, modelling `NanoVDBMediumProvider` (the
temperature grid and emission members are omitted: they do not enter
`Density` or `GetMaxDensityGrid`). -/
structure NanoVDBMediumProvider where
  bounds : Bounds3
  densityGrid : NanoVDBGrid

/-- Density of the sparse grid provider, modelling
`NanoVDBMediumProvider::Density`: sample the density grid at the
index-space image of `p` (the wavelength set is unused by the source). -/
def NanoVDBMediumProvider.Density {Λ : Type} (nv : NanoVDBMediumProvider) (p : V3)
    (_lambda : Λ) : MediumDensity :=
  ⟨fun _ => nv.densityGrid.Sample (nv.densityGrid.worldToIndex p),
   fun _ => nv.densityGrid.Sample (nv.densityGrid.worldToIndex p)⟩

/-- Value the sparse grid builder stores for one cell: map the cell's
world-space box (via `Bounds3f::Lerp` at the cell fractions, `res = 64`)
into index space, widen by the one-voxel filter slop `delta = 1` with
truncating conversion, clamp to the grid's index bounding box, and take the
maximum voxel value over the resulting inclusive integer box starting from
0, as in the source. -/
def nanoCellMax (g : NanoVDBGrid) (bounds : Bounds3) (x y z : ℝ) : ℝ :=
  let wb : Bounds3 := ⟨bounds.Lerp ![x / 64, y / 64, z / 64],
                       bounds.Lerp ![(x + 1) / 64, (y + 1) / 64, (z + 1) / 64]⟩
  let i0 := g.worldToIndex wb.pMin
  let i1 := g.worldToIndex wb.pMax
  boxMax g.getValue (fun i => max (truncZ (i0 i - 1)) (g.bboxMin i))
    (fun i => min (truncZ (i1 i + 1)) (g.bboxMax i))

/-- Majorant grid of the sparse grid provider, modelling
`NanoVDBMediumProvider::GetMaxDensityGrid`: resolution `64^3`, with the
source's own index decomposition `x = index mod 64`,
`y = (index / 64) mod 64`, `z = index / 4096` (the `CHECK_EQ` of the source
asserts `index = x + 64 * (y + 64 * z)`). -/
def NanoVDBMediumProvider.GetMaxDensityGrid (nv : NanoVDBMediumProvider) :
    (ℤ → ℝ) × (Fin 3 → ℕ) :=
  (fun off => nanoCellMax nv.densityGrid nv.bounds ((off % 64 : ℤ) : ℝ)
    ((off / 64 % 64 : ℤ) : ℝ) ((off / 4096 : ℤ) : ℝ), fun _ => 64)

/-- Majorant cell containing a point with offset coordinates `pp`: the same
clamped truncation `Clamp(pp * res, 0, res - 1)` the walk of
`CuboidMedium::SampleT_maj` uses to locate a voxel. -/
def cellOf (res : Fin 3 → ℕ) (pp : V3) : Fin 3 → ℤ :=
  fun i => ⌊Clamp (pp i * (res i : ℝ)) 0 ((res i : ℝ) - 1)⌋

/-- Majorant soundness of a density value against a cell value `g`: for
every choice of nonnegative base absorption and scattering spectra, the
true extinction assembled from the density multipliers (as
`CuboidMedium::Sample` assembles it) does not exceed the majorant
`(sigma_a + sigma_s) * g` the walk uses for the cell. -/
def MajorantSound (d : MediumDensity) (g : ℝ) : Prop :=
  ∀ sa ss : Spec, (∀ i, 0 ≤ sa i) → (∀ i, 0 ≤ ss i) →
    ∀ i, sa i * d.sigma_a i + ss i * d.sigma_s i ≤ (sa i + ss i) * g

/-- Modelled from the spec: the conservativeness contract of the
out-of-source `SampledGrid<Float>` lattice — the filtered lookup at a point
of a sub-box never exceeds the lattice maximum over that sub-box, and the
maximum of the (non-negative) density lattice is non-negative. -/
def SampledGridF.Conservative (g : SampledGridF) : Prop :=
  (∀ (b : Bounds3) (q : V3), (∀ i, b.pMin i ≤ q i ∧ q i ≤ b.pMax i) →
    g.Lookup q ≤ g.MaxValue b) ∧
  (∀ b : Bounds3, 0 ≤ g.MaxValue b)

/-- Modelled from the spec: the conservativeness contract of the
out-of-source `SampledGrid<RGBUnboundedSpectrum>` lattice — whenever the
conversion functional is dominated pointwise by the max functional, the
filtered converted lookup at a point of a sub-box never exceeds the
lattice maximum over that sub-box under the max functional. -/
def SampledGridRGB.Conservative {Λ : Type} (g : SampledGridRGB Λ) : Prop :=
  ∀ (b : Bounds3) (q : V3) (convert : RGBUnboundedSpectrum Λ → Spec)
    (maxF : RGBUnboundedSpectrum Λ → ℝ),
    (∀ i, b.pMin i ≤ q i ∧ q i ≤ b.pMax i) →
    (∀ s i, convert s i ≤ maxF s) →
    ∀ i, g.Lookup q convert i ≤ g.MaxValue b maxF

/-- Contract of the active lattice of a `UniformGridMediumProvider` at a
wavelength set: the conservativeness of whichever grids are present, and —
for the rgb variant — that per-wavelength samples of a stored spectrum
never exceed its over-wavelength maximum (the `RGBUnboundedSpectrum`
contract). -/
def UniformGridMediumProvider.Conservative {Λ : Type}
    (up : UniformGridMediumProvider Λ) (lambda : Λ) : Prop :=
  match up.contents with
  | .density g => g.Conservative
  | .sigmaPair ag sg => ag.Conservative ∧ sg.Conservative
  | .rgb g => g.Conservative ∧
      ∀ (s : RGBUnboundedSpectrum Λ) (i : Fin 4), s.Sample lambda i ≤ s.MaxValue

/-- Modelled from the spec: the contract of the out-of-source nanovdb
machinery — the world-to-index map is componentwise monotone (an
axis-aligned affine map, as the source's box mapping assumes), and the
order-1 sampler at an index-space point is dominated by the value of one of
its trilinear support corners (`floor` or `floor + 1` per axis), where a
corner outside the index bounding box contributes the background value 0. -/
def NanoVDBGrid.Conservative (g : NanoVDBGrid) : Prop :=
  (∀ a b : V3, (∀ i, a i ≤ b i) → ∀ i, g.worldToIndex a i ≤ g.worldToIndex b i) ∧
  (∀ q : V3, ∃ n : Fin 3 → ℤ, (∀ i, n i = ⌊q i⌋ ∨ n i = ⌊q i⌋ + 1) ∧
    g.Sample q ≤ if ∀ i, g.bboxMin i ≤ n i ∧ n i ≤ g.bboxMax i then g.getValue n else 0)

/-- A left fold of `max` never goes below its initial value. -/
lemma foldl_max_init_le (l : List ℝ) (a : ℝ) : a ≤ l.foldl max a := by
  induction l generalizing a with
  | nil => exact le_refl a
  | cons x l ih => exact le_trans (le_max_left a x) (ih (max a x))

/-- A left fold of `max` dominates every list member. -/
lemma mem_le_foldl_max (l : List ℝ) (a x : ℝ) (hx : x ∈ l) : x ≤ l.foldl max a := by
  induction l generalizing a with
  | nil => cases hx
  | cons y l ih =>
    rcases List.mem_cons.mp hx with rfl | h
    · exact le_trans (le_max_right a x) (foldl_max_init_le l (max a x))
    · exact ih (max a y) h

/-- Membership in the inclusive integer interval list. -/
lemma mem_intRange {lo hi n : ℤ} (h1 : lo ≤ n) (h2 : n ≤ hi) : n ∈ intRange lo hi := by
  unfold intRange
  have hmem : (n - lo).toNat ∈ List.range (hi + 1 - lo).toNat :=
    List.mem_range.mpr (by omega)
  have heq : lo + ((n - lo).toNat : ℤ) = n := by omega
  rw [← heq]
  exact List.mem_map_of_mem (fun k : ℕ => lo + (k : ℤ)) hmem

/-- The scanned box maximum starts at 0 and never goes below it. -/
lemma boxMax_nonneg (g : (Fin 3 → ℤ) → ℝ) (lo hi : Fin 3 → ℤ) : 0 ≤ boxMax g lo hi :=
  foldl_max_init_le _ 0

/-- The scanned box maximum dominates every voxel inside the box. -/
lemma le_boxMax (g : (Fin 3 → ℤ) → ℝ) (lo hi : Fin 3 → ℤ) (n : Fin 3 → ℤ)
    (h : ∀ i, lo i ≤ n i ∧ n i ≤ hi i) : g n ≤ boxMax g lo hi := by
  have hn : (![n 0, n 1, n 2] : Fin 3 → ℤ) = n := by
    funext i; fin_cases i <;> rfl
  have hmem : g n ∈ ((intRange (lo 2) (hi 2)).flatMap fun nz =>
      (intRange (lo 1) (hi 1)).flatMap fun ny =>
        (intRange (lo 0) (hi 0)).map fun nx => g ![nx, ny, nz]) := by
    refine List.mem_flatMap.mpr ⟨n 2, mem_intRange (h 2).1 (h 2).2, ?_⟩
    refine List.mem_flatMap.mpr ⟨n 1, mem_intRange (h 1).1 (h 1).2, ?_⟩
    refine List.mem_map.mpr ⟨n 0, mem_intRange (h 0).1 (h 0).2, ?_⟩
    rw [hn]
  exact mem_le_foldl_max _ 0 _ hmem

/-- The truncated lower filter-slop bound never exceeds the floor of any
point at or above `x`. -/
lemma truncZ_sub_one_le_floor (x : ℝ) : truncZ (x - 1) ≤ ⌊x⌋ := by
  unfold truncZ
  have hfl : ⌊x - 1⌋ = ⌊x⌋ - 1 := by
    rw [show x - 1 = x - ((1 : ℤ) : ℝ) by push_cast; ring, Int.floor_sub_int]
  split_ifs with h
  · have h1 := Int.ceil_le_floor_add_one (x - 1)
    omega
  · omega

/-- The truncated upper filter-slop bound dominates the upper trilinear
support corner of any point at or below `x`. -/
lemma floor_add_one_le_truncZ (x : ℝ) : ⌊x⌋ + 1 ≤ truncZ (x + 1) := by
  unfold truncZ
  have hfl : ⌊x + 1⌋ = ⌊x⌋ + 1 := by
    rw [show x + 1 = x + ((1 : ℤ) : ℝ) by push_cast; ring, Int.floor_add_int]
  split_ifs with h
  · have h1 := Int.floor_le_ceil (x + 1)
    omega
  · omega

/-- Recovering the cell coordinates from the flat offset of a 16-per-axis
grid. -/
lemma offset_decompose16 (x y z : ℤ) (hx : 0 ≤ x ∧ x < 16) (hy : 0 ≤ y ∧ y < 16)
    (hz : 0 ≤ z ∧ z < 16) :
    (x + 16 * (y + 16 * z)) % 16 = x ∧ (x + 16 * (y + 16 * z)) / 16 % 16 = y ∧
    (x + 16 * (y + 16 * z)) / 256 = z := by omega

/-- Recovering the cell coordinates from the flat offset of a 64-per-axis
grid. -/
lemma offset_decompose64 (x y z : ℤ) (hx : 0 ≤ x ∧ x < 64) (hy : 0 ≤ y ∧ y < 64)
    (hz : 0 ≤ z ∧ z < 64) :
    (x + 64 * (y + 64 * z)) % 64 = x ∧ (x + 64 * (y + 64 * z)) / 64 % 64 = y ∧
    (x + 64 * (y + 64 * z)) / 4096 = z := by omega

/-- The clamped truncated cell index brackets the offset coordinate:
`cell / r ≤ t ≤ (cell + 1) / r`. -/
lemma cell_fraction_mem (t : ℝ) (r : ℕ) (hr : 1 ≤ r) (h0 : 0 ≤ t) (h1 : t ≤ 1) :
    ((⌊Clamp (t * (r : ℝ)) 0 ((r : ℝ) - 1)⌋ : ℝ)) / (r : ℝ) ≤ t ∧
    t ≤ ((⌊Clamp (t * (r : ℝ)) 0 ((r : ℝ) - 1)⌋ : ℝ) + 1) / (r : ℝ) := by
  have hr1 : (1 : ℝ) ≤ (r : ℝ) := by exact_mod_cast hr
  have hrpos : (0 : ℝ) < (r : ℝ) := by linarith
  unfold Clamp
  split_ifs with ha hb
  · exact absurd ha (not_lt.mpr (mul_nonneg h0 hrpos.le))
  · have hfl : ⌊(r : ℝ) - 1⌋ = (r : ℤ) - 1 := by
      rw [show (r : ℝ) - 1 = (((r : ℤ) - 1 : ℤ) : ℝ) by push_cast; ring]
      exact Int.floor_intCast _
    rw [hfl]
    push_cast
    constructor
    · rw [div_le_iff hrpos]; linarith
    · rw [le_div_iff hrpos]; nlinarith
  · constructor
    · rw [div_le_iff hrpos]; exact Int.floor_le _
    · rw [le_div_iff hrpos]
      have := Int.lt_floor_add_one (t * (r : ℝ))
      linarith

/-- A point between nondegenerate bounds has offset coordinates in
`[0, 1]`. -/
lemma offset_mem_unit (b : Bounds3) (p : V3) (hnd : ∀ i, b.pMin i < b.pMax i)
    (hp : ∀ i, b.pMin i ≤ p i ∧ p i ≤ b.pMax i) (i : Fin 3) :
    0 ≤ b.Offset p i ∧ b.Offset p i ≤ 1 := by
  unfold Bounds3.Offset
  rw [if_pos (hnd i)]
  have hd : 0 < b.pMax i - b.pMin i := by linarith [hnd i]
  constructor
  · apply div_nonneg _ hd.le
    linarith [(hp i).1]
  · rw [div_le_one hd]
    linarith [(hp i).2]

/-- Bracketing a point between the `Lerp` images of offset-coordinate
bounds. -/
lemma lerp_bracket (b : Bounds3) (p : V3) (hnd : ∀ i, b.pMin i < b.pMax i) (i : Fin 3)
    (t t' : ℝ) (h1 : t ≤ b.Offset p i) (h2 : b.Offset p i ≤ t') :
    (1 - t) * b.pMin i + t * b.pMax i ≤ p i ∧
    p i ≤ (1 - t') * b.pMin i + t' * b.pMax i := by
  have hd : 0 < b.pMax i - b.pMin i := by linarith [hnd i]
  unfold Bounds3.Offset at h1 h2
  rw [if_pos (hnd i)] at h1 h2
  rw [le_div_iff hd] at h1
  rw [div_le_iff hd] at h2
  constructor <;> nlinarith

/-- Majorant soundness when both density channels share one spectrum that
is bounded by the cell value. -/
lemma MajorantSound.of_shared (dsp : Spec) (g : ℝ) (h : ∀ i, dsp i ≤ g) :
    MajorantSound ⟨dsp, dsp⟩ g := by
  intro sa ss hsa hss i
  have h1 := mul_le_mul_of_nonneg_left (h i) (hsa i)
  have h2 := mul_le_mul_of_nonneg_left (h i) (hss i)
  nlinarith [h1, h2]

/-- Majorant soundness for separate absorption and scattering channels when
the cell value is the sum of nonnegative per-channel bounds. -/
lemma MajorantSound.of_pair (da ds : Spec) (gA gS : ℝ) (hA : ∀ i, da i ≤ gA)
    (hS : ∀ i, ds i ≤ gS) (hA0 : 0 ≤ gA) (hS0 : 0 ≤ gS) :
    MajorantSound ⟨da, ds⟩ (gA + gS) := by
  intro sa ss hsa hss i
  have h1 := mul_le_mul_of_nonneg_left (hA i) (hsa i)
  have h2 := mul_le_mul_of_nonneg_left (hS i) (hss i)
  nlinarith [mul_nonneg (hsa i) hS0, mul_nonneg (hss i) hA0]

/-- Majorant soundness of the regular voxel grid provider: for every point
between nondegenerate bounds, the density looked up by
`UniformGridMediumProvider::Density` never exceeds the majorant value its
`GetMaxDensityGrid` stores for the cell containing the point, given the
conservativeness contract of the backing lattices. -/
lemma uniformGrid_majorant_sound {Λ : Type} (up : UniformGridMediumProvider Λ)
    (lambda : Λ) (p : V3) (hnd : ∀ i, up.bounds.pMin i < up.bounds.pMax i)
    (hp : ∀ i, up.bounds.pMin i ≤ p i ∧ p i ≤ up.bounds.pMax i)
    (hc : up.Conservative lambda) :
    MajorantSound (up.Density p lambda)
      (up.GetMaxDensityGrid.1 (offsetOf up.GetMaxDensityGrid.2
        (cellOf up.GetMaxDensityGrid.2 (up.bounds.Offset p)))) := by
  have hpp : ∀ i, 0 ≤ up.bounds.Offset p i ∧ up.bounds.Offset p i ≤ 1 :=
    offset_mem_unit _ _ hnd hp
  have hcr : ∀ i, 0 ≤ cellOf up.GetMaxDensityGrid.2 (up.bounds.Offset p) i ∧
      cellOf up.GetMaxDensityGrid.2 (up.bounds.Offset p) i < 16 := by
    intro i
    have h := clamp_floor_mem (up.bounds.Offset p i * ((16 : ℕ) : ℝ)) 16 (by norm_num)
    exact ⟨h.1, h.2⟩
  have hbr : ∀ i,
      ((cellOf up.GetMaxDensityGrid.2 (up.bounds.Offset p) i : ℝ)) / 16 ≤
        up.bounds.Offset p i ∧
      up.bounds.Offset p i ≤
        ((cellOf up.GetMaxDensityGrid.2 (up.bounds.Offset p) i : ℝ) + 1) / 16 := by
    intro i
    have h := cell_fraction_mem (up.bounds.Offset p i) 16 (by norm_num) (hpp i).1
      (hpp i).2
    have e : ((16 : ℕ) : ℝ) = (16 : ℝ) := by norm_num
    rw [e] at h
    exact h
  have hboxmem : ∀ i,
      (uniformCellBounds (cellOf up.GetMaxDensityGrid.2 (up.bounds.Offset p) 0 : ℝ)
        (cellOf up.GetMaxDensityGrid.2 (up.bounds.Offset p) 1 : ℝ)
        (cellOf up.GetMaxDensityGrid.2 (up.bounds.Offset p) 2 : ℝ)).pMin i ≤
        up.bounds.Offset p i ∧
      up.bounds.Offset p i ≤
        (uniformCellBounds (cellOf up.GetMaxDensityGrid.2 (up.bounds.Offset p) 0 : ℝ)
          (cellOf up.GetMaxDensityGrid.2 (up.bounds.Offset p) 1 : ℝ)
          (cellOf up.GetMaxDensityGrid.2 (up.bounds.Offset p) 2 : ℝ)).pMax i := by
    intro i
    fin_cases i
    · simpa [uniformCellBounds] using hbr 0
    · simpa [uniformCellBounds] using hbr 1
    · simpa [uniformCellBounds] using hbr 2
  have hgrid : up.GetMaxDensityGrid.1 (offsetOf up.GetMaxDensityGrid.2
      (cellOf up.GetMaxDensityGrid.2 (up.bounds.Offset p))) =
      uniformCellMax up.contents
        (cellOf up.GetMaxDensityGrid.2 (up.bounds.Offset p) 0 : ℝ)
        (cellOf up.GetMaxDensityGrid.2 (up.bounds.Offset p) 1 : ℝ)
        (cellOf up.GetMaxDensityGrid.2 (up.bounds.Offset p) 2 : ℝ) := by
    have hoff : offsetOf up.GetMaxDensityGrid.2
        (cellOf up.GetMaxDensityGrid.2 (up.bounds.Offset p)) =
        cellOf up.GetMaxDensityGrid.2 (up.bounds.Offset p) 0 +
          16 * (cellOf up.GetMaxDensityGrid.2 (up.bounds.Offset p) 1 +
            16 * cellOf up.GetMaxDensityGrid.2 (up.bounds.Offset p) 2) := by
      unfold offsetOf
      norm_num [UniformGridMediumProvider.GetMaxDensityGrid]
    have hdec := offset_decompose16 _ _ _ (hcr 0) (hcr 1) (hcr 2)
    show uniformCellMax up.contents _ _ _ = _
    rw [hoff, hdec.1, hdec.2.1, hdec.2.2]
  rw [hgrid]
  rcases hcont : up.contents with g | ⟨ag, sg⟩ | g <;>
    simp only [UniformGridMediumProvider.Density, uniformCellMax,
      UniformGridMediumProvider.Conservative, hcont] at hc ⊢
  · exact MajorantSound.of_shared _ _ (fun i => hc.1 _ _ hboxmem)
  · exact MajorantSound.of_pair _ _ _ _ (fun i => hc.1.1 _ _ hboxmem)
      (fun i => hc.2.1 _ _ hboxmem) (hc.1.2 _) (hc.2.2 _)
  · exact MajorantSound.of_shared _ _
      (fun i => hc.1 _ _ _ _ hboxmem (fun s j => hc.2 s j) i)

/-- The scanned cell maximum of the sparse grid builder dominates the
sampled density at any point of the cell's world-space box: the trilinear
support corners of the index-space image lie inside the slop-widened scan
box whenever they are inside the grid's index bounding box, and corners
outside it contribute the background value 0, which the zero-initialized
maximum also dominates. -/
lemma nanoCellMax_bound (g : NanoVDBGrid) (b : Bounds3) (x y z : ℝ) (p : V3)
    (hc : g.Conservative)
    (hlo : ∀ i, b.Lerp ![x / 64, y / 64, z / 64] i ≤ p i)
    (hhi : ∀ i, p i ≤ b.Lerp ![(x + 1) / 64, (y + 1) / 64, (z + 1) / 64] i) :
    g.Sample (g.worldToIndex p) ≤ nanoCellMax g b x y z := by
  unfold nanoCellMax
  simp only [show ∀ u v : V3, (⟨u, v⟩ : Bounds3).pMin = u from fun u v => rfl,
    show ∀ u v : V3, (⟨u, v⟩ : Bounds3).pMax = v from fun u v => rfl]
  have hqlo : ∀ i, g.worldToIndex (b.Lerp ![x / 64, y / 64, z / 64]) i ≤
      g.worldToIndex p i := hc.1 _ _ hlo
  have hqhi : ∀ i, g.worldToIndex p i ≤
      g.worldToIndex (b.Lerp ![(x + 1) / 64, (y + 1) / 64, (z + 1) / 64]) i :=
    hc.1 _ _ hhi
  obtain ⟨n, hn, hle⟩ := hc.2 (g.worldToIndex p)
  by_cases hin : ∀ i, g.bboxMin i ≤ n i ∧ n i ≤ g.bboxMax i
  · rw [if_pos hin] at hle
    refine le_trans hle (le_boxMax _ _ _ n ?_)
    intro i
    have h1 := truncZ_sub_one_le_floor
      (g.worldToIndex (b.Lerp ![x / 64, y / 64, z / 64]) i)
    have h2 := floor_add_one_le_truncZ
      (g.worldToIndex (b.Lerp ![(x + 1) / 64, (y + 1) / 64, (z + 1) / 64]) i)
    have h3 := Int.floor_mono (hqlo i)
    have h4 := Int.floor_mono (hqhi i)
    have h5 := (hin i).1
    have h6 := (hin i).2
    constructor
    · apply max_le _ h5
      rcases hn i with h | h <;> omega
    · apply le_min _ h6
      rcases hn i with h | h <;> omega
  · rw [if_neg hin] at hle
    exact le_trans hle (boxMax_nonneg _ _ _)

/-- Majorant soundness of the sparse grid provider: for every point between
nondegenerate bounds, the density sampled by `NanoVDBMediumProvider::Density`
never exceeds the majorant value its `GetMaxDensityGrid` stores for the
cell containing the point, given the conservativeness contract of the
nanovdb machinery. -/
lemma nanoVDB_majorant_sound {Λ : Type} (nv : NanoVDBMediumProvider) (lambda : Λ)
    (p : V3) (hnd : ∀ i, nv.bounds.pMin i < nv.bounds.pMax i)
    (hp : ∀ i, nv.bounds.pMin i ≤ p i ∧ p i ≤ nv.bounds.pMax i)
    (hc : nv.densityGrid.Conservative) :
    MajorantSound (nv.Density p lambda)
      (nv.GetMaxDensityGrid.1 (offsetOf nv.GetMaxDensityGrid.2
        (cellOf nv.GetMaxDensityGrid.2 (nv.bounds.Offset p)))) := by
  have hpp : ∀ i, 0 ≤ nv.bounds.Offset p i ∧ nv.bounds.Offset p i ≤ 1 :=
    offset_mem_unit _ _ hnd hp
  have hcr : ∀ i, 0 ≤ cellOf nv.GetMaxDensityGrid.2 (nv.bounds.Offset p) i ∧
      cellOf nv.GetMaxDensityGrid.2 (nv.bounds.Offset p) i < 64 := by
    intro i
    have h := clamp_floor_mem (nv.bounds.Offset p i * ((64 : ℕ) : ℝ)) 64 (by norm_num)
    exact ⟨h.1, h.2⟩
  have hbr : ∀ i,
      ((cellOf nv.GetMaxDensityGrid.2 (nv.bounds.Offset p) i : ℝ)) / 64 ≤
        nv.bounds.Offset p i ∧
      nv.bounds.Offset p i ≤
        ((cellOf nv.GetMaxDensityGrid.2 (nv.bounds.Offset p) i : ℝ) + 1) / 64 := by
    intro i
    have h := cell_fraction_mem (nv.bounds.Offset p i) 64 (by norm_num) (hpp i).1
      (hpp i).2
    have e : ((64 : ℕ) : ℝ) = (64 : ℝ) := by norm_num
    rw [e] at h
    exact h
  have hgrid : nv.GetMaxDensityGrid.1 (offsetOf nv.GetMaxDensityGrid.2
      (cellOf nv.GetMaxDensityGrid.2 (nv.bounds.Offset p))) =
      nanoCellMax nv.densityGrid nv.bounds
        (cellOf nv.GetMaxDensityGrid.2 (nv.bounds.Offset p) 0 : ℝ)
        (cellOf nv.GetMaxDensityGrid.2 (nv.bounds.Offset p) 1 : ℝ)
        (cellOf nv.GetMaxDensityGrid.2 (nv.bounds.Offset p) 2 : ℝ) := by
    have hoff : offsetOf nv.GetMaxDensityGrid.2
        (cellOf nv.GetMaxDensityGrid.2 (nv.bounds.Offset p)) =
        cellOf nv.GetMaxDensityGrid.2 (nv.bounds.Offset p) 0 +
          64 * (cellOf nv.GetMaxDensityGrid.2 (nv.bounds.Offset p) 1 +
            64 * cellOf nv.GetMaxDensityGrid.2 (nv.bounds.Offset p) 2) := by
      unfold offsetOf
      norm_num [NanoVDBMediumProvider.GetMaxDensityGrid]
    have hdec := offset_decompose64 _ _ _ (hcr 0) (hcr 1) (hcr 2)
    show nanoCellMax nv.densityGrid nv.bounds _ _ _ = _
    rw [hoff, hdec.1, hdec.2.1, hdec.2.2]
  rw [hgrid]
  have hlo : ∀ i, nv.bounds.Lerp
      ![(cellOf nv.GetMaxDensityGrid.2 (nv.bounds.Offset p) 0 : ℝ) / 64,
        (cellOf nv.GetMaxDensityGrid.2 (nv.bounds.Offset p) 1 : ℝ) / 64,
        (cellOf nv.GetMaxDensityGrid.2 (nv.bounds.Offset p) 2 : ℝ) / 64] i ≤ p i := by
    intro i
    fin_cases i
    · have h := lerp_bracket nv.bounds p hnd 0 _ _ (hbr 0).1 (hbr 0).2
      simpa [Bounds3.Lerp] using h.1
    · have h := lerp_bracket nv.bounds p hnd 1 _ _ (hbr 1).1 (hbr 1).2
      simpa [Bounds3.Lerp] using h.1
    · have h := lerp_bracket nv.bounds p hnd 2 _ _ (hbr 2).1 (hbr 2).2
      simpa [Bounds3.Lerp] using h.1
  have hhi : ∀ i, p i ≤ nv.bounds.Lerp
      ![((cellOf nv.GetMaxDensityGrid.2 (nv.bounds.Offset p) 0 : ℝ) + 1) / 64,
        ((cellOf nv.GetMaxDensityGrid.2 (nv.bounds.Offset p) 1 : ℝ) + 1) / 64,
        ((cellOf nv.GetMaxDensityGrid.2 (nv.bounds.Offset p) 2 : ℝ) + 1) / 64] i := by
    intro i
    fin_cases i
    · have h := lerp_bracket nv.bounds p hnd 0 _ _ (hbr 0).1 (hbr 0).2
      simpa [Bounds3.Lerp] using h.2
    · have h := lerp_bracket nv.bounds p hnd 1 _ _ (hbr 1).1 (hbr 1).2
      simpa [Bounds3.Lerp] using h.2
    · have h := lerp_bracket nv.bounds p hnd 2 _ _ (hbr 2).1 (hbr 2).2
      simpa [Bounds3.Lerp] using h.2
  exact MajorantSound.of_shared _ _
    (fun i => nanoCellMax_bound nv.densityGrid nv.bounds _ _ _ p hc hlo hhi)

/-- C1: majorant soundness for every density provider of the source.  For
the procedural cloud provider, the density is always in `[0, 1]` for every
point and every pair of noise functions, its majorant grid is the single
cell `[1]` at resolution `(1, 1, 1)`, and the density never exceeds that
cell value.  For the regular voxel grid provider and the sparse grid
provider, for every point inside (nondegenerate) provider bounds, the true
extinction assembled from the density returned by `Density` never exceeds
the majorant the provider's `GetMaxDensityGrid` stores for the cell
containing the point, given the conservativeness contracts of the
out-of-source lattices the builders scan. -/
theorem provider_density_bounded_by_majorant :
    (∀ (noise : V3 → ℝ) (dnoise : V3 → V3) (c : CloudMediumProvider) (p : V3),
      0 ≤ c.Density noise dnoise p ∧ c.Density noise dnoise p ≤ 1 ∧
      c.GetMaxDensityGrid = ([1], fun _ => 1) ∧
      MajorantSound ⟨fun _ => c.Density noise dnoise p,
        fun _ => c.Density noise dnoise p⟩ c.GetMaxDensityGrid.1.headI) ∧
    (∀ (Λ : Type) (up : UniformGridMediumProvider Λ) (lambda : Λ) (p : V3),
      (∀ i, up.bounds.pMin i < up.bounds.pMax i) →
      (∀ i, up.bounds.pMin i ≤ p i ∧ p i ≤ up.bounds.pMax i) →
      up.Conservative lambda →
      MajorantSound (up.Density p lambda)
        (up.GetMaxDensityGrid.1 (offsetOf up.GetMaxDensityGrid.2
          (cellOf up.GetMaxDensityGrid.2 (up.bounds.Offset p))))) ∧
    (∀ (Λ : Type) (nv : NanoVDBMediumProvider) (lambda : Λ) (p : V3),
      (∀ i, nv.bounds.pMin i < nv.bounds.pMax i) →
      (∀ i, nv.bounds.pMin i ≤ p i ∧ p i ≤ nv.bounds.pMax i) →
      nv.densityGrid.Conservative →
      MajorantSound (nv.Density p lambda)
        (nv.GetMaxDensityGrid.1 (offsetOf nv.GetMaxDensityGrid.2
          (cellOf nv.GetMaxDensityGrid.2 (nv.bounds.Offset p))))) := by
  refine ⟨?_,
    fun Λ up lambda p hnd hp hc => uniformGrid_majorant_sound up lambda p hnd hp hc,
    fun Λ nv lambda p hnd hp hc => nanoVDB_majorant_sound nv lambda p hnd hp hc⟩
  intro noise dnoise c p
  obtain ⟨h0, h1, hgrid, hle⟩ := cloud_density_bounded_by_majorant noise dnoise c p
  exact ⟨h0, h1, hgrid, MajorantSound.of_shared _ _ (fun i => hle)⟩

/-- Concrete regular voxel grid provider for the witness: unit-cube bounds
and a density lattice whose lookup is `1/2` everywhere and whose cell
maximum is 1. -/
def cexUniformProvider : UniformGridMediumProvider Unit :=
  ⟨cexBounds, .density ⟨fun _ => 1/2, fun _ => 1⟩⟩

/-- Concrete sparse grid provider for the witness: unit-cube bounds, an
identity world-to-index map, unit voxel values on the index box
`[0, 63]^3`, and a sampler returning 0. -/
def cexNanoProvider : NanoVDBMediumProvider :=
  ⟨cexBounds, ⟨fun q => q, fun _ => 1, fun _ => 0, fun _ => 63, fun _ => 0⟩⟩

/-- Witness for `provider_density_bounded_by_majorant`: the hypotheses of
the voxel-grid and sparse-grid parts discharged at concrete providers and
the point `(1/2, 1/2, 1/2)`, with the conclusions obtained by applying the
theorem. -/
theorem provider_density_bounded_by_majorant_witness :
    ((∀ i, cexUniformProvider.bounds.pMin i < cexUniformProvider.bounds.pMax i) ∧
     (∀ i, cexUniformProvider.bounds.pMin i ≤ (fun _ => (1 : ℝ)/2) i ∧
       (fun _ => (1 : ℝ)/2) i ≤ cexUniformProvider.bounds.pMax i) ∧
     cexUniformProvider.Conservative () ∧
     MajorantSound (cexUniformProvider.Density (fun _ => (1 : ℝ)/2) ())
       (cexUniformProvider.GetMaxDensityGrid.1
         (offsetOf cexUniformProvider.GetMaxDensityGrid.2
           (cellOf cexUniformProvider.GetMaxDensityGrid.2
             (cexUniformProvider.bounds.Offset (fun _ => (1 : ℝ)/2)))))) ∧
    ((∀ i, cexNanoProvider.bounds.pMin i < cexNanoProvider.bounds.pMax i) ∧
     (∀ i, cexNanoProvider.bounds.pMin i ≤ (fun _ => (1 : ℝ)/2) i ∧
       (fun _ => (1 : ℝ)/2) i ≤ cexNanoProvider.bounds.pMax i) ∧
     cexNanoProvider.densityGrid.Conservative ∧
     MajorantSound (cexNanoProvider.Density (fun _ => (1 : ℝ)/2) ())
       (cexNanoProvider.GetMaxDensityGrid.1
         (offsetOf cexNanoProvider.GetMaxDensityGrid.2
           (cellOf cexNanoProvider.GetMaxDensityGrid.2
             (cexNanoProvider.bounds.Offset (fun _ => (1 : ℝ)/2)))))) := by
  have hndU : ∀ i, cexUniformProvider.bounds.pMin i < cexUniformProvider.bounds.pMax i :=
    fun _ => show (0 : ℝ) < 1 by norm_num
  have hpU : ∀ i, cexUniformProvider.bounds.pMin i ≤ (fun _ => (1 : ℝ)/2) i ∧
      (fun _ => (1 : ℝ)/2) i ≤ cexUniformProvider.bounds.pMax i :=
    fun _ => show (0 : ℝ) ≤ 1/2 ∧ (1 : ℝ)/2 ≤ 1 by norm_num
  have hcU : cexUniformProvider.Conservative () :=
    ⟨fun _ _ _ => show (1 : ℝ)/2 ≤ 1 by norm_num, fun _ => show (0 : ℝ) ≤ 1 by norm_num⟩
  have hndN : ∀ i, cexNanoProvider.bounds.pMin i < cexNanoProvider.bounds.pMax i :=
    fun _ => show (0 : ℝ) < 1 by norm_num
  have hpN : ∀ i, cexNanoProvider.bounds.pMin i ≤ (fun _ => (1 : ℝ)/2) i ∧
      (fun _ => (1 : ℝ)/2) i ≤ cexNanoProvider.bounds.pMax i :=
    fun _ => show (0 : ℝ) ≤ 1/2 ∧ (1 : ℝ)/2 ≤ 1 by norm_num
  have hcN : cexNanoProvider.densityGrid.Conservative := by
    refine ⟨fun a b h i => h i, fun q => ⟨fun i => ⌊q i⌋, fun i => Or.inl rfl, ?_⟩⟩
    show (0 : ℝ) ≤ _
    split_ifs <;> norm_num [cexNanoProvider]
  exact ⟨⟨hndU, hpU, hcU,
      provider_density_bounded_by_majorant.2.1 Unit cexUniformProvider ()
        (fun _ => (1 : ℝ)/2) hndU hpU hcU⟩,
    ⟨hndN, hpN, hcN,
      provider_density_bounded_by_majorant.2.2 Unit cexNanoProvider ()
        (fun _ => (1 : ℝ)/2) hndN hpN hcN⟩⟩

end PbrtMedia
